import Mathlib

/-!
Shallow embedding of the Ink-Storylet-Framework pool refresh engine
(`src/node/src/StoryletManager.ts`, with `src/unity/src/StoryletsManager.cs`
as the secondary implementation).  JavaScript `Map`s are modelled as
insertion-ordered association lists with unique keys; the Ink story is
modelled as an environment giving the evaluation result of each identifier,
tag list, and the set of known knot identifiers.  JS numbers returned by
predicates are modelled as rationals (`Math.floor` becomes `Rat.floor`).
-/

namespace Storylets

/-- Result of `story.EvaluateFunction(id)` as observed by the manager:
a boolean, a number, some other value type, or a thrown exception. -/
inductive EvalResult where
  | boolR (b : Bool)
  | numR (q : ℚ)
  | otherR
  | errR
deriving DecidableEq, Repr

/-- A parsed tag value: `parseTags` produces booleans or trimmed strings. -/
inductive TagVal where
  | boolV (b : Bool)
  | strV (s : String)
deriving DecidableEq, Repr

/-- Model of `class Storylet` from StoryletManager.ts. -/
structure Storylet where
  knotID : String
  played : Bool := false
  once : Bool := false
  groupPredicate : Option String := none
deriving DecidableEq, Repr

/-- Model of `enum State` from StoryletManager.ts. -/
inductive State where
  | NEEDS_REFRESH
  | REFRESHING
  | REFRESH_COMPLETE
deriving DecidableEq, Repr

/-- Model of `interface PoolState` from StoryletManager.ts.  `deck` is a JS `Map`
keyed by `knotID`, modelled as an insertion-ordered list of records. -/
structure PoolState where
  deck : List Storylet := []
  refreshList : List Storylet := []
  hand : List String := []
  handWeighted : List String := []
  state : State := State.NEEDS_REFRESH
deriving DecidableEq, Repr

/-- The manager fields: `_pools` and `_storyletTags` (both JS `Map`s,
modelled as insertion-ordered association lists) and `storyletsPerTick`. -/
structure Manager where
  pools : List (String × PoolState) := []
  storyletTags : List (String × List (String × TagVal)) := []
  storyletsPerTick : Nat := 5
deriving DecidableEq, Repr

/-- The parts of the Ink `Story` the manager consumes: `EvaluateFunction`,
`tagsForContentAtPath`, and the list of knot names discovered by
`getAllKnotIDs`. -/
structure Env where
  evaluate : String → EvalResult
  tagsFor : String → Option (List String)
  knotIDs : List String

/-- Model of `map.set(k, v)` / `obj[k] = v` semantics on an association list:
overwrite in place if the key is present, else append. -/
def assocSet {α : Type} (l : List (String × α)) (k : String) (v : α) :
    List (String × α) :=
  if l.any (fun kv => kv.1 = k) then
    l.map (fun kv => if kv.1 = k then (k, v) else kv)
  else l ++ [(k, v)]

/-- Model of `deck.set(knotID, storylet)`: overwrite the record with the same
`knotID` in place, else append. -/
def deckSet (deck : List Storylet) (s : Storylet) : List Storylet :=
  if deck.any (fun t => t.knotID = s.knotID) then
    deck.map (fun t => if t.knotID = s.knotID then s else t)
  else deck ++ [s]

/-- Model of `deck.get(knotID)`. -/
def deckGet (deck : List Storylet) (id : String) : Option Storylet :=
  deck.find? (fun t => t.knotID = id)

/-- The fresh pool created by `getOrCreatePoolState`. -/
def emptyPoolState : PoolState := {}

/-- Model of `getOrCreatePoolState`: insert an empty pool if the name is unknown.
Returns the updated manager (the looked-up pool is read off with
`poolOf`). -/
def getOrCreate (m : Manager) (pool : String) : Manager :=
  if (m.pools.any (fun kv => kv.1 = pool)) then m
  else { m with pools := m.pools ++ [(pool, emptyPoolState)] }

/-- Read the state of a pool out of the manager (`_pools.get(pool)`). -/
def poolOf (m : Manager) (pool : String) : Option PoolState :=
  (m.pools.find? (fun kv => kv.1 = pool)).map (·.2)

/-- Replace the state of the named pool (models in-place mutation of the
`PoolState` object held in `_pools`). -/
def updatePool (m : Manager) (pool : String) (f : PoolState → PoolState) :
    Manager :=
  { m with pools := m.pools.map (fun kv => if kv.1 = pool then (kv.1, f kv.2) else kv) }

/-- Model of JS `toLowerCase()` on the character sequence. -/
def lowerStr (s : String) : String := ⟨s.data.map Char.toLower⟩

/-- Model of JS `trim()`: drop whitespace from both ends. -/
def trimStr (s : String) : String :=
  ⟨((s.data.dropWhile Char.isWhitespace).reverse.dropWhile
      Char.isWhitespace).reverse⟩

/-- Model of JS `startsWith`. -/
def startsWithStr (s pre : String) : Bool :=
  decide (s.data.take pre.data.length = pre.data)

/-- Model of `parseTags` from StoryletManager.ts, following its
`indexOf(':')` / `slice` structure: bare tag → `true`; `key: value` with
value `"true"`/`"false"` (case-insensitive) → boolean; otherwise the
trimmed string.  Keys are trimmed and lowercased. -/
def parseTags (rawTags : List String) : List (String × TagVal) :=
  rawTags.foldl (fun result tag =>
    match tag.data.findIdx? (fun c => c = Char.ofNat 58) with
    | none => assocSet result (lowerStr (trimStr tag)) (TagVal.boolV true)
    | some colonIdx =>
      let k := lowerStr (trimStr ⟨tag.data.take colonIdx⟩)
      let raw := trimStr ⟨tag.data.drop (colonIdx + 1)⟩
      let lower := lowerStr raw
      if lower = "true" then assocSet result k (TagVal.boolV true)
      else if lower = "false" then assocSet result k (TagVal.boolV false)
      else assocSet result k (TagVal.strV raw)) []

/-- The body of the discovery loop of `addStorylets`: the ids accepted
into the deck are those starting with `name + "_"` that have a matching
predicate function `"_" + knotID` among the known knots. -/
def acceptedIds (env : Env) (name : String) : List String :=
  env.knotIDs.filter (fun knotID =>
    startsWithStr knotID (name ++ "_")
      && env.knotIDs.contains ("_" ++ knotID))

/-- The fresh record `addStorylets` constructs for an accepted knot:
`played` starts false, `once` comes from the freshly parsed tags, and the
group predicate is the underscored name when that knot exists. -/
def freshStorylet (env : Env) (name : String) (knotID : String) : Storylet :=
  { knotID := knotID
    played := false
    once := decide ((parseTags ((env.tagsFor knotID).getD [])).find?
              (fun kv => kv.1 = "once") = some ("once", TagVal.boolV true))
    groupPredicate :=
      if env.knotIDs.contains ("_" ++ name) then some ("_" ++ name)
      else none }

/-- One iteration of the `addStorylets` discovery loop: skip knots that
do not match the prefixed name or have no predicate function; otherwise
cache the parsed tags and overwrite the deck record with a fresh
`Storylet`. -/
def addOne (env : Env) (name : String) (pool : String) (mm : Manager)
    (knotID : String) : Manager :=
  if startsWithStr knotID (name ++ "_") then
    if env.knotIDs.contains ("_" ++ knotID) then
      updatePool
        { mm with storyletTags :=
            assocSet mm.storyletTags knotID (parseTags ((env.tagsFor knotID).getD [])) }
        pool
        (fun ps =>
          { ps with deck := deckSet ps.deck (freshStorylet env name knotID) })
    else mm
  else mm

/-- Model of `addStorylets(name, pool)` from StoryletManager.ts: create
the pool if needed, then run the discovery loop over all knot ids. -/
def addStorylets (env : Env) (m : Manager) (name : String)
    (pool : String) : Manager :=
  env.knotIDs.foldl (addOne env name pool) (getOrCreate m pool)

/-- The group-gate evaluation inside `buildRefreshList`: start from
`active = true`; a boolean result is used directly, a numeric result is
active iff `> 0`, any other result type leaves `active = true`, and a
thrown evaluation (missing function or any other error) is caught and
leaves `active = true`. -/
def gateActive (ev : String → EvalResult) (gp : String) : Bool :=
  match ev gp with
  | EvalResult.boolR b => b
  | EvalResult.numR q => decide (q > 0)
  | EvalResult.otherR => true
  | EvalResult.errR => true

/-- The body of the first loop of `buildRefreshList` for one deck record:
evaluate its group predicate unless it is absent or already memoised. -/
def groupStep (ev : String → EvalResult) (acc : List (String × Bool))
    (s : Storylet) : List (String × Bool) :=
  match s.groupPredicate with
  | none => acc
  | some gp =>
    if acc.any (fun kv => kv.1 = gp) then acc
    else acc ++ [(gp, gateActive ev gp)]

/-- The first loop of `buildRefreshList`: walk the deck and evaluate each
distinct group predicate exactly once, memoised in `groupResults` (the
association list also records the order of evaluation). -/
def computeGroupResults (ev : String → EvalResult) (deck : List Storylet) :
    List (String × Bool) :=
  deck.foldl (groupStep ev) []

/-- The second loop of `buildRefreshList`: keep every deck record except
those whose group predicate was evaluated and found inactive. -/
def buildRefreshList (ev : String → EvalResult) (deck : List Storylet) :
    List Storylet :=
  let groupResults := computeGroupResults ev deck
  deck.filter (fun s =>
    match s.groupPredicate with
    | none => true
    | some gp =>
      match groupResults.find? (fun kv => kv.1 = gp) with
      | some kv => kv.2
      | none => true)

/-- Model of `getWeighting` from StoryletManager.ts: `played && once` forces 0
without evaluation; otherwise a thrown evaluation is 0, a boolean is
1/0, a number is floored, and any other type is 0. -/
def getWeighting (ev : String → EvalResult) (s : Storylet) : ℤ :=
  if s.played && s.once then 0
  else
    match ev ("_" ++ s.knotID) with
    | EvalResult.errR => 0
    | EvalResult.boolR b => if b then 1 else 0
    | EvalResult.numR q => q.floor
    | EvalResult.otherR => 0

/-- The refresh body applied to one pool (lines 141–144 / 147–150 of
StoryletManager.ts): clear `hand`/`handWeighted`, rebuild the refresh
list, set state to `REFRESHING`. -/
def refreshPool (ev : String → EvalResult) (ps : PoolState) : PoolState :=
  { ps with
    hand := []
    handWeighted := []
    refreshList := buildRefreshList ev ps.deck
    state := State.REFRESHING }

/-- Model of `refresh(pool?)` from StoryletManager.ts.  With a named pool: create
it if absent, do nothing if it is already `REFRESHING`, else apply the
refresh body.  With no pool: apply the refresh body to every pool. -/
def refresh (ev : String → EvalResult) (m : Manager) (pool : Option String) :
    Manager :=
  match pool with
  | some p =>
    let m1 := getOrCreate m p
    match poolOf m1 p with
    | none => m1
    | some ps =>
      if ps.state = State.REFRESHING then m1
      else updatePool m1 p (fun _ => refreshPool ev ps)
  | none =>
    { m with pools := m.pools.map (fun kv => (kv.1, refreshPool ev kv.2)) }

/-- The inner body of `tick` for one record: weight `> 0` appends the id
once to `hand` and `weight` times to `handWeighted`. -/
def processRecord (ev : String → EvalResult)
    (hw : List String × List String) (s : Storylet) :
    List String × List String :=
  let w := getWeighting ev s
  if w > 0 then
    (hw.1 ++ [s.knotID], hw.2 ++ List.replicate w.toNat s.knotID)
  else hw

/-- One `tick` iteration on a single pool: if `REFRESHING`, shift and
process `min storyletsPerTick |refreshList|` records; when the list
empties, flip to `REFRESH_COMPLETE`.  The boolean reports whether the
`onRefreshComplete` callback fired for this pool in this call. -/
def tickPool (ev : String → EvalResult) (budget : Nat) (ps : PoolState) :
    PoolState × Bool :=
  if ps.state = State.REFRESHING then
    let n := min budget ps.refreshList.length
    let hw := (ps.refreshList.take n).foldl (processRecord ev)
      (ps.hand, ps.handWeighted)
    let rest := ps.refreshList.drop n
    ({ ps with
        refreshList := rest
        hand := hw.1
        handWeighted := hw.2
        state := if rest.isEmpty then State.REFRESH_COMPLETE else State.REFRESHING },
      rest.isEmpty)
  else (ps, false)

/-- Model of `tick()` from StoryletManager.ts: apply `tickPool` to every pool in
map order; the returned list gives, in order, the pool names for which
`onRefreshComplete` fired during this call. -/
def tick (ev : String → EvalResult) (m : Manager) : Manager × List String :=
  let results := m.pools.map (fun kv => (kv.1, tickPool ev m.storyletsPerTick kv.2))
  ({ m with pools := results.map (fun r => (r.1, r.2.1)) },
    (results.filter (fun r => r.2.2)).map (·.1))

/-- Iterate `tick` `n` times, accumulating every completion event fired. -/
def tickN (ev : String → EvalResult) : Nat → Manager → Manager × List String
  | 0, m => (m, [])
  | n + 1, m =>
    let r := tick ev m
    let r' := tickN ev n r.1
    (r'.1, r.2 ++ r'.2)

/-- Model of `getPlayableStorylets(weighted, pool)`: `none` (null) unless the pool
exists and is `REFRESH_COMPLETE`. -/
def getPlayableStorylets (m : Manager) (weighted : Bool) (pool : String) :
    Option (List String) :=
  match poolOf m pool with
  | none => none
  | some ps =>
    if ps.state = State.REFRESH_COMPLETE then
      some (if weighted then ps.handWeighted else ps.hand)
    else none

/-- The mutation `markPlayed` performs on one pool: set `played := true`
on the deck record with the given id, if present. -/
def markPlayedInPool (ps : PoolState) (id : String) : PoolState :=
  { ps with deck := ps.deck.map (fun s =>
      if s.knotID = id then { s with played := true } else s) }

/-- Model of `markPlayed(knotID, pool?)`: with a named pool, mark in the deck of
that pool if both exist; with no pool, mark in the deck of every pool (unknown ids
silently ignored). -/
def markPlayed (m : Manager) (id : String) (pool : Option String) : Manager :=
  match pool with
  | some p =>
    match poolOf m p with
    | none => m
    | some _ => updatePool m p (fun ps => markPlayedInPool ps id)
  | none =>
    { m with pools := m.pools.map (fun kv => (kv.1, markPlayedInPool kv.2 id)) }

/-- Model of `pickPlayableStorylet(pool)` with the random draw made explicit: `i`
models `Math.floor(Math.random() * handWeighted.length)`.  Returns the
updated manager and the drawn id (`none` models returning null). -/
def pickPlayableStorylet (m : Manager) (i : Nat) (pool : String) :
    Manager × Option String :=
  match poolOf m pool with
  | none => (m, none)
  | some ps =>
    if ps.state = State.REFRESH_COMPLETE then
      if ps.handWeighted.length = 0 then (m, none)
      else
        let knotID := ps.handWeighted.getD i ""
        (markPlayed m knotID (some pool), some knotID)
    else (m, none)

/-- Model of `getStoryletTag(knotID, tagName, defaultValue)`: case-insensitive
lookup in the tag cache; the default (`none` models null) is returned
when the id or the key is unknown. -/
def getStoryletTag (m : Manager) (knotID : String) (tagName : String)
    (defaultValue : Option TagVal) : Option TagVal :=
  match m.storyletTags.find? (fun kv => kv.1 = knotID) with
  | none => defaultValue
  | some kv =>
    match kv.2.find? (fun tv => tv.1 = lowerStr tagName) with
    | some tv => some tv.2
    | none => defaultValue

/-- Model of `getPlayableStoryletsWithTag(tagName, tagValue, pool?)`: search the
named pool, or every pool, skipping pools that are missing or not
`REFRESH_COMPLETE`; filter the hand by exact tag-value match. -/
def getPlayableStoryletsWithTag (m : Manager) (tagName : String)
    (tagValue : TagVal) (pool : Option String) : List String :=
  let poolNames : List String := match pool with
    | some p => [p]
    | none => m.pools.map (·.1)
  poolNames.foldl (fun (result : List String) (p : String) =>
    match poolOf m p with
    | none => result
    | some ps =>
      if ps.state = State.REFRESH_COMPLETE then
        result ++ ps.hand.filter (fun knotID =>
          match m.storyletTags.find? (fun kv => kv.1 = knotID) with
          | none => false
          | some kv =>
            match kv.2.find? (fun tv => tv.1 = lowerStr tagName) with
            | some tv => decide (tv.2 = tagValue)
            | none => false)
      else result) []

/-- Model of `resetPoolState` from StoryletManager.ts: clear every `played` flag,
empty the refresh list and both hands, return to `NEEDS_REFRESH`. -/
def resetPoolState (ps : PoolState) : PoolState :=
  { deck := ps.deck.map (fun s => { s with played := false })
    refreshList := []
    hand := []
    handWeighted := []
    state := State.NEEDS_REFRESH }

/-- Model of `reset(pool?)`: reset the named pool if it exists, or every pool. -/
def reset (m : Manager) (pool : Option String) : Manager :=
  match pool with
  | some p =>
    match poolOf m p with
    | none => m
    | some _ => updatePool m p resetPoolState
  | none =>
    { m with pools := m.pools.map (fun kv => (kv.1, resetPoolState kv.2)) }

/-- The data structure `saveAsJson` serialises (`JSON.stringify` of it is
the blob): for every pool in map order, the `(knotID, played)` pairs of
its deck in map order. -/
def saveData (m : Manager) : List (String × List (String × Bool)) :=
  m.pools.map (fun kv => (kv.1, kv.2.deck.map (fun s => (s.knotID, s.played))))

/-- The inner loop of `loadFromJson` for one pool: apply each blob entry
in order, setting `played` on the matching deck record if it exists. -/
def applyEntries (deck : List Storylet) (entries : List (String × Bool)) :
    List Storylet :=
  entries.foldl (fun d e =>
    d.map (fun s => if s.knotID = e.1 then { s with played := e.2 } else s)) deck

/-- Model of `loadFromJson` on the parsed blob: `reset()` everything first, then
for each blob pool that still exists apply its entries; blob pools and
ids with no current counterpart are skipped. -/
def loadData (m : Manager) (data : List (String × List (String × Bool))) :
    Manager :=
  data.foldl (fun mm pd =>
    match poolOf mm pd.1 with
    | none => mm
    | some _ => updatePool mm pd.1 (fun ps =>
        { ps with deck := applyEntries ps.deck pd.2 })) (reset m none)

/-! ## Helper lemmas: association-list plumbing -/

theorem find?_map_keyed {α β : Type} (l : List (String × α)) (f : α → β)
    (p : String) :
    (l.map (fun kv => (kv.1, f kv.2))).find? (fun kv => kv.1 = p)
      = (l.find? (fun kv => kv.1 = p)).map (fun kv => (kv.1, f kv.2)) := by
  induction l with
  | nil => rfl
  | cons kv l ih =>
    by_cases h : kv.1 = p
    · simp [List.find?_cons, h]
    · simp [List.find?_cons, h, ih]

theorem find?_update_keyed {α : Type} (l : List (String × α)) (f : α → α)
    (p q : String) :
    (l.map (fun kv => if kv.1 = p then (kv.1, f kv.2) else kv)).find?
        (fun kv => kv.1 = q)
      = if p = q then
          (l.find? (fun kv => kv.1 = q)).map (fun kv => (kv.1, f kv.2))
        else l.find? (fun kv => kv.1 = q) := by
  induction l with
  | nil => simp
  | cons kv l ih =>
    by_cases hq : kv.1 = q
    · by_cases hp : kv.1 = p
      · have hpq : p = q := by rw [← hp, hq]
        simp [List.find?_cons, hp, hq, hpq, -List.find?_map]
      · have hpq : ¬ p = q := fun h => hp (h ▸ hq)
        have hqp : ¬ q = p := fun h => hpq h.symm
        simp [List.find?_cons, hp, hq, hpq, hqp, -List.find?_map]
    · by_cases hp : kv.1 = p
      · have hpq : ¬ (p = q) := fun h => hq (hp.trans h)
        simp [List.find?_cons, hp, hq, hpq, ih, -List.find?_map]
      · simp [List.find?_cons, hp, hq, ih, -List.find?_map]

theorem poolOf_mapPools (m : Manager) (f : PoolState → PoolState) (p : String) :
    poolOf { m with pools := m.pools.map (fun kv => (kv.1, f kv.2)) } p
      = (poolOf m p).map f := by
  show ((m.pools.map (fun kv => (kv.1, f kv.2))).find?
      (fun kv => kv.1 = p)).map (·.2)
    = ((m.pools.find? (fun kv => kv.1 = p)).map (·.2)).map f
  rw [find?_map_keyed]
  cases m.pools.find? (fun kv => kv.1 = p) <;> rfl

theorem poolOf_updatePool_self (m : Manager) (p : String)
    (f : PoolState → PoolState) :
    poolOf (updatePool m p f) p = (poolOf m p).map f := by
  show ((m.pools.map (fun kv => if kv.1 = p then (kv.1, f kv.2) else kv)).find?
      (fun kv => kv.1 = p)).map (·.2)
    = ((m.pools.find? (fun kv => kv.1 = p)).map (·.2)).map f
  rw [find?_update_keyed, if_pos rfl]
  cases m.pools.find? (fun kv => kv.1 = p) <;> rfl

theorem poolOf_updatePool_ne (m : Manager) (p q : String)
    (f : PoolState → PoolState) (h : ¬ p = q) :
    poolOf (updatePool m p f) q = poolOf m q := by
  show ((m.pools.map (fun kv => if kv.1 = p then (kv.1, f kv.2) else kv)).find?
      (fun kv => kv.1 = q)).map (·.2)
    = (m.pools.find? (fun kv => kv.1 = q)).map (·.2)
  rw [find?_update_keyed, if_neg h]

theorem poolOf_some_elim {m : Manager} {p : String} {ps : PoolState}
    (h : poolOf m p = some ps) : (p, ps) ∈ m.pools := by
  unfold poolOf at h
  obtain ⟨kv, hkv, hv⟩ := Option.map_eq_some'.mp h
  have hk : kv.1 = p := by simpa using List.find?_some hkv
  have : kv = (p, ps) := by
    cases kv; simp only at hk hv; simp [hk, hv]
  exact this ▸ List.mem_of_find?_eq_some hkv

theorem getOrCreate_of_mem {m : Manager} {p : String} {ps : PoolState}
    (h : poolOf m p = some ps) : getOrCreate m p = m := by
  unfold getOrCreate
  rw [if_pos]
  exact List.any_eq_true.mpr ⟨(p, ps), poolOf_some_elim h, by simp⟩

/-! ## Helper lemmas: draining records into the hands -/

/-- The hand entries contributed by draining the given records from an
empty hand. -/
def handOf (ev : String → EvalResult) (rs : List Storylet) : List String :=
  (rs.foldl (processRecord ev) ([], [])).1

/-- The weighted-hand entries contributed by draining the given records
from an empty weighted hand. -/
def whandOf (ev : String → EvalResult) (rs : List Storylet) : List String :=
  (rs.foldl (processRecord ev) ([], [])).2

theorem processRecord_eq (ev : String → EvalResult)
    (hw : List String × List String) (s : Storylet) :
    processRecord ev hw s =
      (hw.1 ++ (if 0 < getWeighting ev s then [s.knotID] else []),
       hw.2 ++ (if 0 < getWeighting ev s then
          List.replicate (getWeighting ev s).toNat s.knotID else [])) := by
  by_cases h : 0 < getWeighting ev s <;> simp [processRecord, h]

theorem foldl_processRecord_eq (ev : String → EvalResult) (rs : List Storylet)
    (h w : List String) :
    rs.foldl (processRecord ev) (h, w)
      = (h ++ handOf ev rs, w ++ whandOf ev rs) := by
  induction rs generalizing h w with
  | nil => simp [handOf, whandOf]
  | cons r rs ih =>
    simp only [List.foldl_cons, handOf, whandOf, processRecord_eq]
    rw [ih, ih]
    simp

theorem handOf_cons (ev : String → EvalResult) (r : Storylet)
    (rs : List Storylet) :
    handOf ev (r :: rs)
      = (if 0 < getWeighting ev r then [r.knotID] else []) ++ handOf ev rs := by
  simp only [handOf, List.foldl_cons, processRecord_eq]
  rw [foldl_processRecord_eq]
  simp [handOf]

theorem whandOf_cons (ev : String → EvalResult) (r : Storylet)
    (rs : List Storylet) :
    whandOf ev (r :: rs)
      = (if 0 < getWeighting ev r then
          List.replicate (getWeighting ev r).toNat r.knotID else [])
        ++ whandOf ev rs := by
  simp only [whandOf, List.foldl_cons, processRecord_eq]
  rw [foldl_processRecord_eq]
  simp [whandOf]

theorem handOf_append (ev : String → EvalResult) (xs ys : List Storylet) :
    handOf ev (xs ++ ys) = handOf ev xs ++ handOf ev ys := by
  simp only [handOf, List.foldl_append]
  rw [foldl_processRecord_eq]
  simp [handOf, whandOf]

theorem whandOf_append (ev : String → EvalResult) (xs ys : List Storylet) :
    whandOf ev (xs ++ ys) = whandOf ev xs ++ whandOf ev ys := by
  simp only [whandOf, List.foldl_append]
  rw [foldl_processRecord_eq]
  simp [handOf, whandOf]

theorem mem_handOf {ev : String → EvalResult} {rs : List Storylet}
    {c : String} :
    c ∈ handOf ev rs ↔ ∃ r ∈ rs, r.knotID = c ∧ 0 < getWeighting ev r := by
  induction rs with
  | nil => simp [handOf]
  | cons r rs ih =>
    rw [handOf_cons]
    constructor
    · intro hc
      rcases List.mem_append.mp hc with h1 | h2
      · by_cases h : 0 < getWeighting ev r
        · rw [if_pos h, List.mem_singleton] at h1
          exact ⟨r, List.mem_cons_self r rs, h1.symm, h⟩
        · rw [if_neg h] at h1
          cases h1
      · obtain ⟨t, ht, htc, hw⟩ := ih.mp h2
        exact ⟨t, List.mem_cons_of_mem _ ht, htc, hw⟩
    · rintro ⟨t, ht, rfl, hw⟩
      rcases List.mem_cons.mp ht with rfl | ht'
      · exact List.mem_append.mpr (Or.inl (by rw [if_pos hw]; exact List.mem_singleton.mpr rfl))
      · exact List.mem_append.mpr (Or.inr (ih.mpr ⟨t, ht', rfl, hw⟩))

theorem mem_whandOf {ev : String → EvalResult} {rs : List Storylet}
    {c : String} :
    c ∈ whandOf ev rs ↔ ∃ r ∈ rs, r.knotID = c ∧ 0 < getWeighting ev r := by
  induction rs with
  | nil => simp [whandOf]
  | cons r rs ih =>
    rw [whandOf_cons]
    constructor
    · intro hc
      rcases List.mem_append.mp hc with h1 | h2
      · by_cases h : 0 < getWeighting ev r
        · rw [if_pos h, List.mem_replicate] at h1
          exact ⟨r, List.mem_cons_self r rs, h1.2.symm, h⟩
        · rw [if_neg h] at h1
          cases h1
      · obtain ⟨t, ht, htc, hw⟩ := ih.mp h2
        exact ⟨t, List.mem_cons_of_mem _ ht, htc, hw⟩
    · rintro ⟨t, ht, rfl, hw⟩
      rcases List.mem_cons.mp ht with rfl | ht'
      · refine List.mem_append.mpr (Or.inl ?_)
        rw [if_pos hw, List.mem_replicate]
        exact ⟨by omega, rfl⟩
      · exact List.mem_append.mpr (Or.inr (ih.mpr ⟨t, ht', rfl, hw⟩))

theorem count_drain (ev : String → EvalResult) (rs : List Storylet)
    (r : Storylet) (hnd : (rs.map Storylet.knotID).Nodup) (hr : r ∈ rs) :
    (handOf ev rs).count r.knotID
        = (if 0 < getWeighting ev r then 1 else 0) ∧
      (whandOf ev rs).count r.knotID = (getWeighting ev r).toNat := by
  induction rs with
  | nil => cases hr
  | cons r0 rs ih =>
    rw [handOf_cons, whandOf_cons, List.count_append, List.count_append]
    rw [List.map_cons, List.nodup_cons] at hnd
    rcases List.mem_cons.mp hr with rfl | hr'
    · have hnotin : r.knotID ∉ handOf ev rs := by
        intro hc
        obtain ⟨t, ht, htc, _⟩ := mem_handOf.mp hc
        exact hnd.1 (htc ▸ List.mem_map_of_mem Storylet.knotID ht)
      have hnotinw : r.knotID ∉ whandOf ev rs := by
        intro hc
        obtain ⟨t, ht, htc, _⟩ := mem_whandOf.mp hc
        exact hnd.1 (htc ▸ List.mem_map_of_mem Storylet.knotID ht)
      rw [List.count_eq_zero.mpr hnotin, List.count_eq_zero.mpr hnotinw]
      by_cases h : 0 < getWeighting ev r
      · simp [h]
      · simp [h, Int.toNat_of_nonpos (le_of_not_lt h)]
    · have hne : ¬ (r.knotID = r0.knotID) := by
        intro hc
        exact hnd.1 (hc ▸ List.mem_map_of_mem Storylet.knotID hr')
      have h1 : (if 0 < getWeighting ev r0 then [r0.knotID] else []).count
          r.knotID = 0 := by
        by_cases h : 0 < getWeighting ev r0 <;> simp [h, hne]
      have hne' : ¬ r0.knotID = r.knotID := fun hc => hne hc.symm
      have h2 : (if 0 < getWeighting ev r0 then
          List.replicate (getWeighting ev r0).toNat r0.knotID
          else []).count r.knotID = 0 := by
        by_cases h : 0 < getWeighting ev r0 <;>
          simp [h, hne, hne', List.count_replicate]
      rw [h1, h2, Nat.zero_add, Nat.zero_add]
      exact ih hnd.2 hr'

/-! ## Helper lemmas: iterating the tick body on one pool -/

/-- Iterate the per-pool body of `tick` on a single pool state. -/
def tickPoolN (ev : String → EvalResult) (budget : Nat) :
    Nat → PoolState → PoolState
  | 0, ps => ps
  | n + 1, ps => tickPoolN ev budget n (tickPool ev budget ps).1

/-- How many times the per-pool body fires the completion callback over
`n` iterations on a single pool state. -/
def countFired (ev : String → EvalResult) (budget : Nat) :
    Nat → PoolState → Nat
  | 0, _ => 0
  | n + 1, ps =>
    (if (tickPool ev budget ps).2 then 1 else 0)
      + countFired ev budget n (tickPool ev budget ps).1

theorem tickPool_stuck {ev : String → EvalResult} {budget : Nat}
    {ps : PoolState} (h : ¬ ps.state = State.REFRESHING) :
    tickPool ev budget ps = (ps, false) := by
  simp [tickPool, h]

theorem tickPoolN_stuck {ev : String → EvalResult} {budget n : Nat}
    {ps : PoolState} (h : ¬ ps.state = State.REFRESHING) :
    tickPoolN ev budget n ps = ps := by
  induction n with
  | zero => rfl
  | succ n ih =>
    show tickPoolN ev budget n (tickPool ev budget ps).1 = ps
    rw [tickPool_stuck h]
    exact ih

theorem tickPool_run {ev : String → EvalResult} {budget : Nat}
    {ps : PoolState} (h : ps.state = State.REFRESHING) :
    tickPool ev budget ps =
      ({ deck := ps.deck
         refreshList := ps.refreshList.drop (min budget ps.refreshList.length)
         hand := ps.hand
           ++ handOf ev (ps.refreshList.take (min budget ps.refreshList.length))
         handWeighted := ps.handWeighted
           ++ whandOf ev (ps.refreshList.take (min budget ps.refreshList.length))
         state :=
           if (ps.refreshList.drop (min budget ps.refreshList.length)).isEmpty
           then State.REFRESH_COMPLETE else State.REFRESHING },
       (ps.refreshList.drop (min budget ps.refreshList.length)).isEmpty) := by
  simp [tickPool, h, foldl_processRecord_eq]

theorem tickPoolN_complete {ev : String → EvalResult} {budget n : Nat}
    {ps : PoolState} (h : ps.state = State.REFRESHING)
    (hc : (tickPoolN ev budget n ps).state = State.REFRESH_COMPLETE) :
    tickPoolN ev budget n ps =
      { deck := ps.deck
        refreshList := []
        hand := ps.hand ++ handOf ev ps.refreshList
        handWeighted := ps.handWeighted ++ whandOf ev ps.refreshList
        state := State.REFRESH_COMPLETE } := by
  induction n generalizing ps with
  | zero =>
    rw [show tickPoolN ev budget 0 ps = ps from rfl] at hc
    rw [h] at hc
    cases hc
  | succ n ih =>
    have hstep := @tickPool_run ev budget ps h
    rw [show tickPoolN ev budget (n + 1) ps
        = tickPoolN ev budget n (tickPool ev budget ps).1 from rfl] at hc ⊢
    by_cases hrest : (ps.refreshList.drop (min budget ps.refreshList.length)).isEmpty
    · have hlen : min budget ps.refreshList.length = ps.refreshList.length := by
        have h1 : ps.refreshList.length
            - min budget ps.refreshList.length = 0 := by
          rw [← List.length_drop]
          simp [List.isEmpty_iff.mp hrest]
        omega
      have hRstate : ((tickPool ev budget ps).1).state = State.REFRESH_COMPLETE := by
        rw [hstep]
        simp [hrest]
      rw [tickPoolN_stuck (by rw [hRstate]; intro hcontra; cases hcontra)]
      rw [hstep]
      simp [hrest, hlen, List.take_length]
    · have hRstate : ((tickPool ev budget ps).1).state = State.REFRESHING := by
        rw [hstep]
        simp [hrest]
      have := ih hRstate hc
      rw [this, hstep]
      simp only [hrest, if_neg, Bool.false_eq_true, not_false_iff]
      rw [List.append_assoc, List.append_assoc, ← handOf_append, ← whandOf_append,
        List.take_append_drop]

theorem tickPool_progress {ev : String → EvalResult} {b : Nat} {ps : PoolState}
    (h : ps.state = State.REFRESHING) (hlt : b < ps.refreshList.length) :
    (tickPool ev b ps).1.state = State.REFRESHING ∧
    (tickPool ev b ps).1.refreshList.length = ps.refreshList.length - b ∧
    (tickPool ev b ps).2 = false := by
  have hmin : min b ps.refreshList.length = b := by omega
  have hne : ¬ (ps.refreshList.drop (min b ps.refreshList.length)).isEmpty := by
    rw [hmin, List.isEmpty_iff_length_eq_zero, List.length_drop]
    omega
  rw [tickPool_run h]
  refine ⟨by simp [hne], ?_, by simp [hne]⟩
  simp only [List.length_drop, hmin]

theorem tickPool_completes {ev : String → EvalResult} {b : Nat} {ps : PoolState}
    (h : ps.state = State.REFRESHING) (hle : ps.refreshList.length ≤ b) :
    (tickPool ev b ps).1.state = State.REFRESH_COMPLETE ∧
    (tickPool ev b ps).2 = true := by
  have hmin : min b ps.refreshList.length = ps.refreshList.length := by omega
  have hemp : (ps.refreshList.drop (min b ps.refreshList.length)).isEmpty := by
    rw [hmin, List.drop_length]
    rfl
  rw [tickPool_run h]
  exact ⟨by simp [hemp], hemp⟩

theorem tickPoolN_progress {ev : String → EvalResult} {b : Nat} :
    ∀ (k : Nat) (ps : PoolState), ps.state = State.REFRESHING →
    k * b < ps.refreshList.length →
    (tickPoolN ev b k ps).state = State.REFRESHING ∧
    (tickPoolN ev b k ps).refreshList.length = ps.refreshList.length - k * b ∧
    countFired ev b k ps = 0 := by
  intro k
  induction k with
  | zero =>
    intro ps h hlt
    exact ⟨h, by rw [Nat.zero_mul]; rfl, rfl⟩
  | succ k ih =>
    intro ps h hlt
    have hsm : (k + 1) * b = k * b + b := Nat.succ_mul k b
    have hblt : b < ps.refreshList.length := by omega
    obtain ⟨h1, h2, h3⟩ := @tickPool_progress ev b ps h hblt
    have hstep := ih (tickPool ev b ps).1 h1 (by rw [h2]; omega)
    refine ⟨hstep.1, ?_, ?_⟩
    · show (tickPoolN ev b k (tickPool ev b ps).1).refreshList.length = _
      rw [hstep.2.1, h2]
      omega
    · show (if (tickPool ev b ps).2 then 1 else 0)
        + countFired ev b k (tickPool ev b ps).1 = 0
      rw [h3, hstep.2.2]
      rfl

theorem tickPoolN_add (ev : String → EvalResult) (b : Nat) :
    ∀ (j k : Nat) (ps : PoolState),
    tickPoolN ev b (j + k) ps = tickPoolN ev b k (tickPoolN ev b j ps) := by
  intro j
  induction j with
  | zero => intro k ps; rw [Nat.zero_add]; rfl
  | succ j ih =>
    intro k ps
    rw [Nat.succ_add]
    show tickPoolN ev b (j + k) (tickPool ev b ps).1 = _
    rw [ih]
    rfl

theorem countFired_add (ev : String → EvalResult) (b : Nat) :
    ∀ (j k : Nat) (ps : PoolState),
    countFired ev b (j + k) ps
      = countFired ev b j ps + countFired ev b k (tickPoolN ev b j ps) := by
  intro j
  induction j with
  | zero =>
    intro k ps
    rw [Nat.zero_add]
    show countFired ev b k ps = 0 + countFired ev b k ps
    rw [Nat.zero_add]
  | succ j ih =>
    intro k ps
    rw [Nat.succ_add]
    show (if (tickPool ev b ps).2 then 1 else 0)
        + countFired ev b (j + k) (tickPool ev b ps).1 = _
    rw [ih]
    show _ = (if (tickPool ev b ps).2 then 1 else 0)
        + countFired ev b j (tickPool ev b ps).1
        + countFired ev b k (tickPoolN ev b j (tickPool ev b ps).1)
    omega

theorem countFired_stuck {ev : String → EvalResult} {b : Nat}
    {ps : PoolState} (h : ¬ ps.state = State.REFRESHING) :
    ∀ n, countFired ev b n ps = 0 := by
  intro n
  induction n with
  | zero => rfl
  | succ n ih =>
    show (if (tickPool ev b ps).2 then 1 else 0)
      + countFired ev b n (tickPool ev b ps).1 = 0
    rw [tickPool_stuck h]
    simpa using ih

/-! ## Helper lemmas: manager-level tick and events -/

theorem tick_fst (ev : String → EvalResult) (m : Manager) :
    (tick ev m).1
      = { m with pools :=
            m.pools.map (fun kv => (kv.1, (tickPool ev m.storyletsPerTick kv.2).1)) } := by
  simp [tick, List.map_map]

theorem tick_perTick (ev : String → EvalResult) (m : Manager) :
    (tick ev m).1.storyletsPerTick = m.storyletsPerTick := by
  rw [tick_fst]

theorem tick_tags (ev : String → EvalResult) (m : Manager) :
    (tick ev m).1.storyletTags = m.storyletTags := by
  rw [tick_fst]

theorem tick_keys (ev : String → EvalResult) (m : Manager) :
    (tick ev m).1.pools.map Prod.fst = m.pools.map Prod.fst := by
  rw [tick_fst]
  simp [List.map_map]

theorem poolOf_tick {ev : String → EvalResult} {m : Manager} {p : String}
    {ps : PoolState} (h : poolOf m p = some ps) :
    poolOf (tick ev m).1 p = some ((tickPool ev m.storyletsPerTick ps).1) := by
  rw [tick_fst,
    poolOf_mapPools m (fun q => (tickPool ev m.storyletsPerTick q).1) p, h]
  rfl

theorem poolOf_tickN {ev : String → EvalResult} {p : String} :
    ∀ {n : Nat} {m : Manager} {ps : PoolState}, poolOf m p = some ps →
    poolOf (tickN ev n m).1 p
      = some (tickPoolN ev m.storyletsPerTick n ps) := by
  intro n
  induction n with
  | zero => intro m ps h; exact h
  | succ n ih =>
    intro m ps h
    show poolOf (tickN ev n (tick ev m).1).1 p = _
    rw [ih (poolOf_tick h), tick_perTick]
    rfl

theorem poolOf_find? {m : Manager} {p : String} {ps : PoolState}
    (h : poolOf m p = some ps) :
    m.pools.find? (fun kv => kv.1 = p) = some (p, ps) := by
  unfold poolOf at h
  obtain ⟨kv, hkv, hv⟩ := Option.map_eq_some'.mp h
  have hk : kv.1 = p := by simpa using List.find?_some hkv
  have : kv = (p, ps) := by
    cases kv; simp only at hk hv; simp [hk, hv]
  exact this ▸ hkv

theorem eventList_count_zero (ev : String → EvalResult) (b : Nat)
    (l : List (String × PoolState)) (p : String)
    (hnot : p ∉ l.map Prod.fst) :
    ((((l.map (fun kv => (kv.1, tickPool ev b kv.2))).filter
      (fun r => r.2.2)).map Prod.fst).count p) = 0 := by
  rw [List.count_eq_zero]
  intro hc
  obtain ⟨r, hrmem, hr1⟩ := List.mem_map.mp hc
  obtain ⟨kv, hkv, hkveq⟩ := List.mem_map.mp (List.mem_of_mem_filter hrmem)
  apply hnot
  rw [← hr1, ← hkveq]
  exact List.mem_map_of_mem Prod.fst hkv

theorem count_eventList (ev : String → EvalResult) (b : Nat)
    (l : List (String × PoolState)) (p : String) (ps : PoolState)
    (hk : (l.map Prod.fst).Nodup)
    (h : l.find? (fun kv => kv.1 = p) = some (p, ps)) :
    ((((l.map (fun kv => (kv.1, tickPool ev b kv.2))).filter
      (fun r => r.2.2)).map Prod.fst).count p)
      = if (tickPool ev b ps).2 then 1 else 0 := by
  induction l with
  | nil => cases h
  | cons kv l ih =>
    rw [List.map_cons, List.nodup_cons] at hk
    by_cases hkp : kv.1 = p
    · have : kv = (p, ps) := by
        rw [List.find?_cons, show (decide (kv.1 = p)) = true by simp [hkp]] at h
        exact Option.some.inj h
      subst this
      rw [List.map_cons, List.filter_cons]
      have hz := eventList_count_zero ev b l p hk.1
      by_cases hf : (tickPool ev b ps).2
      · simp only [hf, if_pos, List.map_cons, List.count_cons]
        simp [hz]
      · simp only [hf, Bool.false_eq_true, if_neg, not_false_iff]
        simp [hz, hf]
    · rw [List.find?_cons, show (decide (kv.1 = p)) = false by simp [hkp]] at h
      rw [List.map_cons, List.filter_cons]
      by_cases hf : (tickPool ev b kv.2).2
      · simp only [hf, if_pos, List.map_cons, List.count_cons]
        rw [ih hk.2 h]
        simp [hkp]
      · simp only [hf, Bool.false_eq_true, if_neg, not_false_iff]
        exact ih hk.2 h

theorem count_tick_events {ev : String → EvalResult} {m : Manager}
    {p : String} {ps : PoolState} (hk : (m.pools.map Prod.fst).Nodup)
    (h : poolOf m p = some ps) :
    (tick ev m).2.count p
      = if (tickPool ev m.storyletsPerTick ps).2 then 1 else 0 := by
  exact count_eventList ev m.storyletsPerTick m.pools p ps hk (poolOf_find? h)

theorem count_tickN_events {ev : String → EvalResult} {p : String} :
    ∀ {n : Nat} {m : Manager} {ps : PoolState},
    (m.pools.map Prod.fst).Nodup → poolOf m p = some ps →
    (tickN ev n m).2.count p = countFired ev m.storyletsPerTick n ps := by
  intro n
  induction n with
  | zero => intro m ps hk h; rfl
  | succ n ih =>
    intro m ps hk h
    show ((tick ev m).2 ++ (tickN ev n (tick ev m).1).2).count p = _
    rw [List.count_append, count_tick_events hk h,
      ih (by rw [tick_keys]; exact hk) (poolOf_tick h), tick_perTick]
    rfl

/-! ## Helper lemmas: refresh and group gates -/

theorem refresh_named_eq {ev : String → EvalResult} {m : Manager} {p : String}
    {ps : PoolState} (h : poolOf m p = some ps)
    (hs : ¬ ps.state = State.REFRESHING) :
    refresh ev m (some p) = updatePool m p (fun _ => refreshPool ev ps) := by
  simp only [refresh, getOrCreate_of_mem h, h]
  simp [hs]

theorem poolOf_refresh_named {ev : String → EvalResult} {m : Manager}
    {p : String} {ps : PoolState} (h : poolOf m p = some ps)
    (hs : ¬ ps.state = State.REFRESHING) :
    poolOf (refresh ev m (some p)) p = some (refreshPool ev ps) := by
  rw [refresh_named_eq h hs, poolOf_updatePool_self, h]
  rfl

theorem groupResults_spec (ev : String → EvalResult) :
    ∀ (deck : List Storylet) (acc : List (String × Bool)),
    ((acc.map Prod.fst).Nodup →
      ((deck.foldl (groupStep ev) acc).map Prod.fst).Nodup) ∧
    (∀ g, g ∈ (deck.foldl (groupStep ev) acc).map Prod.fst ↔
      g ∈ acc.map Prod.fst ∨ g ∈ deck.filterMap Storylet.groupPredicate) := by
  intro deck
  induction deck with
  | nil =>
    intro acc
    exact ⟨id, by simp⟩
  | cons s deck ih =>
    intro acc
    have hstepkeys : ∀ g, g ∈ (groupStep ev acc s).map Prod.fst ↔
        g ∈ acc.map Prod.fst ∨ s.groupPredicate = some g := by
      intro g
      unfold groupStep
      cases hgp : s.groupPredicate with
      | none => simp
      | some gp =>
        dsimp only
        by_cases hmem : acc.any (fun kv => kv.1 = gp)
        · rw [if_pos hmem]
          constructor
          · exact Or.inl
          · rintro (hg | hg)
            · exact hg
            · obtain ⟨kv, hkv, hkveq⟩ := List.any_eq_true.mp hmem
              have hk1 : kv.1 = gp := by simpa using hkveq
              have hmemk : gp ∈ acc.map Prod.fst :=
                hk1 ▸ List.mem_map_of_mem Prod.fst hkv
              exact (Option.some.inj hg) ▸ hmemk
        · rw [if_neg hmem, List.map_append]
          simp only [List.map_cons, List.map_nil, List.mem_append,
            List.mem_singleton]
          constructor
          · rintro (hg | hg)
            · exact Or.inl hg
            · exact Or.inr (by rw [hg])
          · rintro (hg | hg)
            · exact Or.inl hg
            · exact Or.inr (Option.some.inj hg).symm
    have hstepnd : (acc.map Prod.fst).Nodup →
        ((groupStep ev acc s).map Prod.fst).Nodup := by
      intro hnd
      unfold groupStep
      cases hgp : s.groupPredicate with
      | none => exact hnd
      | some gp =>
        dsimp only
        by_cases hmem : acc.any (fun kv => kv.1 = gp)
        · rw [if_pos hmem]
          exact hnd
        · rw [if_neg hmem, List.map_append]
          rw [List.nodup_append]
          refine ⟨hnd, by simp, ?_⟩
          intro a ha hb
          simp only [List.map_cons, List.map_nil, List.mem_singleton] at hb
          subst hb
          obtain ⟨kv, hkv, hkveq⟩ := List.mem_map.mp ha
          exact hmem (List.any_eq_true.mpr ⟨kv, hkv, by simp [hkveq]⟩)
    constructor
    · intro hnd
      exact (ih (groupStep ev acc s)).1 (hstepnd hnd)
    · intro g
      rw [List.foldl_cons, (ih (groupStep ev acc s)).2 g, hstepkeys g]
      cases hgp : s.groupPredicate with
      | none => simp [hgp]
      | some gp =>
        simp only [List.filterMap_cons, hgp, List.mem_cons, Option.some.injEq]
        constructor
        · rintro ((hg | hg) | hg)
          · exact Or.inl hg
          · exact Or.inr (Or.inl hg.symm)
          · exact Or.inr (Or.inr hg)
        · rintro (hg | (hg | hg))
          · exact Or.inl (Or.inl hg)
          · exact Or.inl (Or.inr hg.symm)
          · exact Or.inr hg

theorem computeGroupResults_keys (ev : String → EvalResult)
    (deck : List Storylet) :
    ((computeGroupResults ev deck).map Prod.fst).Nodup ∧
    (∀ g, g ∈ (computeGroupResults ev deck).map Prod.fst ↔
      g ∈ deck.filterMap Storylet.groupPredicate) := by
  have h := groupResults_spec ev deck []
  refine ⟨h.1 (by simp), fun g => ?_⟩
  rw [show computeGroupResults ev deck = deck.foldl (groupStep ev) [] from rfl,
    h.2 g]
  simp

theorem computeGroupResults_vals (ev : String → EvalResult)
    (deck : List Storylet) :
    ∀ kv ∈ computeGroupResults ev deck, kv.2 = gateActive ev kv.1 := by
  suffices h : ∀ (acc : List (String × Bool)),
      (∀ kv ∈ acc, kv.2 = gateActive ev kv.1) →
      ∀ kv ∈ deck.foldl (groupStep ev) acc, kv.2 = gateActive ev kv.1 by
    exact h [] (by simp)
  induction deck with
  | nil => intro acc hacc; exact hacc
  | cons s deck ih =>
    intro acc hacc
    rw [List.foldl_cons]
    apply ih
    intro kv hkv
    unfold groupStep at hkv
    cases hgp : s.groupPredicate with
    | none => exact hacc kv (by rwa [hgp] at hkv)
    | some gp =>
      rw [hgp] at hkv
      dsimp only at hkv
      by_cases hmem : acc.any (fun kv => kv.1 = gp)
      · rw [if_pos hmem] at hkv
        exact hacc kv hkv
      · rw [if_neg hmem] at hkv
        rcases List.mem_append.mp hkv with hk | hk
        · exact hacc kv hk
        · rw [List.mem_singleton] at hk
          rw [hk]

theorem mem_buildRefreshList_of_active {ev : String → EvalResult}
    {deck : List Storylet} {s : Storylet} (hs : s ∈ deck)
    (hgate : ∀ g, s.groupPredicate = some g → gateActive ev g = true) :
    s ∈ buildRefreshList ev deck := by
  unfold buildRefreshList
  apply List.mem_filter.mpr
  refine ⟨hs, ?_⟩
  cases hgp : s.groupPredicate with
  | none => rfl
  | some gp =>
    cases hfind : (computeGroupResults ev deck).find? (fun kv => kv.1 = gp) with
    | none => simp [hgp, hfind]
    | some kv =>
      have hval := computeGroupResults_vals ev deck kv
        (List.mem_of_find?_eq_some hfind)
      have hkey : kv.1 = gp := by simpa using List.find?_some hfind
      simp [hgp, hfind, hval, hkey, hgate gp hgp]

theorem buildRefreshList_sublist (ev : String → EvalResult)
    (deck : List Storylet) : (buildRefreshList ev deck).Sublist deck :=
  List.filter_sublist deck

/-! ## Helper lemmas: frame facts about refresh and tick -/

theorem getOrCreate_perTick (m : Manager) (p : String) :
    (getOrCreate m p).storyletsPerTick = m.storyletsPerTick := by
  unfold getOrCreate
  split <;> rfl

theorem refresh_perTick (ev : String → EvalResult) (m : Manager)
    (po : Option String) :
    (refresh ev m po).storyletsPerTick = m.storyletsPerTick := by
  unfold refresh
  cases po with
  | none => rfl
  | some p =>
    dsimp only
    cases poolOf (getOrCreate m p) p with
    | none => exact getOrCreate_perTick m p
    | some ps =>
      dsimp only
      split
      · exact getOrCreate_perTick m p
      · exact getOrCreate_perTick m p

theorem updatePool_keys (m : Manager) (p : String) (f : PoolState → PoolState) :
    (updatePool m p f).pools.map Prod.fst = m.pools.map Prod.fst := by
  unfold updatePool
  simp only [List.map_map]
  apply List.map_congr_left
  intro kv _
  by_cases h : kv.1 = p <;> simp [h]

theorem tickPool_removed_le {ev : String → EvalResult} {b : Nat}
    (ps : PoolState) :
    ps.refreshList.length - (tickPool ev b ps).1.refreshList.length ≤ b := by
  by_cases h : ps.state = State.REFRESHING
  · rw [tickPool_run h]
    simp only [List.length_drop]
    omega
  · rw [tickPool_stuck h]
    show ps.refreshList.length - ps.refreshList.length ≤ b
    omega

theorem ceil_bounds {D b : Nat} (hb : 1 ≤ b) (hD : 1 ≤ D) :
    1 ≤ (D + b - 1) / b ∧ D ≤ ((D + b - 1) / b) * b ∧
      (((D + b - 1) / b) - 1) * b < D := by
  have hb0 : 0 < b := hb
  have h1 : ((D + b - 1) / b) * b ≤ D + b - 1 := Nat.div_mul_le_self _ b
  have h2 : D + b - 1 < ((D + b - 1) / b + 1) * b :=
    (Nat.div_lt_iff_lt_mul hb0).mp (Nat.lt_succ_self _)
  have h3 : 1 ≤ (D + b - 1) / b :=
    (Nat.le_div_iff_mul_le hb0).mpr (by omega)
  have h4 : ((D + b - 1) / b - 1) * b = ((D + b - 1) / b) * b - b := by
    rw [Nat.sub_mul, Nat.one_mul]
  have h5 : ((D + b - 1) / b + 1) * b = ((D + b - 1) / b) * b + b := by
    rw [Nat.add_mul, Nat.one_mul]
  omega

/-! ## Concrete inputs used by witnesses and counterexamples -/

/-- An evaluator on which every function call throws. -/
def evErr : String → EvalResult := fun _ => EvalResult.errR

/-- A storylet guarded by group gate `_g`. -/
def sG : Storylet := { knotID := "g_a", groupPredicate := some "_g" }

/-- A manager with one pool `p` that is currently REFRESHING. -/
def mC3 : Manager :=
  { pools := [("p",
      { deck := [sG], refreshList := [sG], hand := [], handWeighted := [],
        state := State.REFRESHING })] }

/-! ## C3 -/

/-- C3: for every pool in state REFRESHING, calling `refresh` with that
pool named is a no-op — the whole manager (hence that pool state, pending
queue, hand and weighted hand) is unchanged. -/
theorem C3_refresh_refreshing_noop (ev : String → EvalResult) (m : Manager)
    (p : String) (ps : PoolState) (h : poolOf m p = some ps)
    (hs : ps.state = State.REFRESHING) :
    refresh ev m (some p) = m := by
  simp only [refresh, getOrCreate_of_mem h, h]
  simp [hs]

/-- Witness for C3 at a concrete refreshing manager. -/
theorem C3_refresh_refreshing_noop_witness :
    refresh evErr mC3 (some "p") = mC3 :=
  C3_refresh_refreshing_noop evErr mC3 "p"
    { deck := [sG], refreshList := [sG], hand := [], handWeighted := [],
      state := State.REFRESHING } (by decide) (by decide)

/-! ## C4 -/

/-- C4 counterexample: the claim says that a gate evaluation error for an
existing gate makes the gate inactive and excludes its storylets from
that refresh.  On the code, the catch sets `active = true`: with an
evaluator that throws on gate `_g`, the gated storylet still enters the
pending queue built by the refresh. -/
theorem C4_counterexample :
    evErr "_g" = EvalResult.errR ∧
    gateActive evErr "_g" = true ∧
    buildRefreshList evErr [sG] = [sG] :=
  ⟨rfl, rfl, by decide⟩

/-- C4 (amended): during a refresh each distinct group gate referenced by
the deck is evaluated exactly once (the memo table holds exactly the
distinct referenced gates), and any gate evaluation error — a missing
gate function or any other throw, both observed as a thrown
`EvaluateFunction` — is caught and treated as ACTIVE (fail-open), so the
storylets of an erroring gate still enter the pending queue. -/
theorem C4_gate_once_and_fail_open (ev : String → EvalResult)
    (deck : List Storylet) :
    (((computeGroupResults ev deck).map Prod.fst).Nodup ∧
      ∀ g, g ∈ (computeGroupResults ev deck).map Prod.fst ↔
        g ∈ deck.filterMap Storylet.groupPredicate) ∧
    (∀ g, ev g = EvalResult.errR → gateActive ev g = true) ∧
    (∀ s ∈ deck, ∀ g, s.groupPredicate = some g → ev g = EvalResult.errR →
      s ∈ buildRefreshList ev deck) := by
  refine ⟨computeGroupResults_keys ev deck, fun g hg => ?_,
    fun s hs g hgp herr => ?_⟩
  · simp [gateActive, hg]
  · refine mem_buildRefreshList_of_active hs (fun g2 hg2 => ?_)
    rw [hgp] at hg2
    rw [← Option.some.inj hg2]
    simp [gateActive, herr]

/-- Witness for C4 at a concrete deck and throwing evaluator. -/
theorem C4_gate_once_and_fail_open_witness :
    sG ∈ buildRefreshList evErr [sG] :=
  (C4_gate_once_and_fail_open evErr [sG]).2.2 sG (by decide) "_g" rfl rfl

/-! ## C1 -/

/-- C1: after a refresh of pool `p` completes (reached by some number of
ticks), every storylet processed in that refresh (the built pending
queue) with computed weight `> 0` appears exactly once in the hand and
exactly `(getWeighting ev s).toNat` times — i.e. `max 0 (floor weight)`
times, the weight being already floored by `getWeighting` — in the
weighted hand; a storylet with weight `≤ 0` appears in neither. -/
theorem C1_hand_weightedHand_counts (ev : String → EvalResult) (m : Manager)
    (p : String) (ps : PoolState) (n : Nat) (psF : PoolState)
    (h : poolOf m p = some ps)
    (hnd : (ps.deck.map Storylet.knotID).Nodup)
    (hs : ¬ ps.state = State.REFRESHING)
    (hF : poolOf (tickN ev n (refresh ev m (some p))).1 p = some psF)
    (hc : psF.state = State.REFRESH_COMPLETE) :
    ∀ s ∈ buildRefreshList ev ps.deck,
      (0 < getWeighting ev s →
        psF.hand.count s.knotID = 1 ∧
        psF.handWeighted.count s.knotID = (getWeighting ev s).toNat) ∧
      (getWeighting ev s ≤ 0 →
        ¬ s.knotID ∈ psF.hand ∧ ¬ s.knotID ∈ psF.handWeighted) := by
  have h1 : poolOf (refresh ev m (some p)) p = some (refreshPool ev ps) :=
    poolOf_refresh_named h hs
  have h2 := @poolOf_tickN ev p n (refresh ev m (some p))
    (refreshPool ev ps) h1
  rw [hF] at h2
  have hpsF := Option.some.inj h2
  have hrs : (refreshPool ev ps).state = State.REFRESHING := rfl
  have hcomp := @tickPoolN_complete ev
    ((refresh ev m (some p)).storyletsPerTick) n (refreshPool ev ps) hrs
    (by rw [← hpsF]; exact hc)
  rw [← hpsF] at hcomp
  have hhand : psF.hand = handOf ev (buildRefreshList ev ps.deck) := by
    rw [hcomp]
    exact List.nil_append _
  have hwhand : psF.handWeighted = whandOf ev (buildRefreshList ev ps.deck) := by
    rw [hcomp]
    exact List.nil_append _
  have hndr : ((buildRefreshList ev ps.deck).map Storylet.knotID).Nodup :=
    hnd.sublist ((buildRefreshList_sublist ev ps.deck).map Storylet.knotID)
  intro s hsmem
  have hcount := count_drain ev (buildRefreshList ev ps.deck) s hndr hsmem
  constructor
  · intro hw
    rw [hhand, hwhand]
    exact ⟨by rw [hcount.1, if_pos hw], hcount.2⟩
  · intro hw
    rw [hhand, hwhand]
    constructor
    · apply List.count_eq_zero.mp
      rw [hcount.1, if_neg (not_lt.mpr hw)]
    · apply List.count_eq_zero.mp
      rw [hcount.2, Int.toNat_of_nonpos hw]

/-- Evaluator for the concrete scenario of §8 of the spec: `s_A` has
weight 2, `s_B` weight 0, `s_C` is boolean-true. -/
def evC1 : String → EvalResult := fun id =>
  if id = "_s_A" then EvalResult.numR 2
  else if id = "_s_B" then EvalResult.numR 0
  else if id = "_s_C" then EvalResult.boolR true
  else EvalResult.errR

/-- The §8 deck: A (weight 2), B (weight 0), C (boolean, once). -/
def deckC1 : List Storylet :=
  [{ knotID := "s_A" }, { knotID := "s_B" }, { knotID := "s_C", once := true }]

/-- A manager holding the §8 deck in the default pool. -/
def mC1 : Manager := { pools := [("default", { deck := deckC1 })] }

/-- The default pool after one refresh and one draining tick of `mC1`. -/
def psFC1 : PoolState :=
  { deck := deckC1
    refreshList := []
    hand := ["s_A", "s_C"]
    handWeighted := ["s_A", "s_A", "s_C"]
    state := State.REFRESH_COMPLETE }

/-- Witness for C1 on the §8 scenario: `s_A` (weight 2) is once in the
hand and twice in the weighted hand. -/
theorem C1_hand_weightedHand_counts_witness :
    psFC1.hand.count "s_A" = 1 ∧ psFC1.handWeighted.count "s_A" = 2 := by
  have h := C1_hand_weightedHand_counts evC1 mC1 "default" { deck := deckC1 }
    1 psFC1 (by decide) (by decide) (by decide) (by decide) (by decide)
  have h2 := (h { knotID := "s_A" } (by decide)).1 (by decide)
  exact ⟨h2.1, by rw [h2.2]; decide⟩

/-! ## C2 -/

/-- C2 counterexample: the claim says a pool whose pending queue holds
`D` records reaches REFRESH_COMPLETE after exactly `ceil(D / budget)`
ticks.  For `D = 0` (empty deck, no group-gate exclusions, default
budget 5) `ceil(0 / 5) = 0`, yet after the refresh and `0` ticks the
pool is still REFRESHING: one tick is required. -/
theorem C2_counterexample :
    (((0 + 5 - 1) / 5 : Nat) = 0) ∧
    ((poolOf (tickN evErr 0 (refresh evErr
        ({ pools := [("p", emptyPoolState)] } : Manager) (some "p"))).1
      "p").map PoolState.state = some State.REFRESHING) :=
  ⟨rfl, by decide⟩

/-- C2 (amended): a single `tick()` removes (and evaluates) at most
`budget` records from each pool pending queue; and a pool whose freshly
built pending queue holds `D` records reaches REFRESH_COMPLETE after
exactly `max 1 (ceil(D / budget))` tick() calls — `ceil(D / budget)`
whenever `D ≥ 1`, but one tick (not zero) when `D = 0` — before which it
is still REFRESHING, and the completion callback for that pool fires
exactly once over those ticks. -/
theorem C2_tick_budget_and_completion (ev : String → EvalResult)
    (m : Manager) (p : String) (ps : PoolState)
    (hk : (m.pools.map Prod.fst).Nodup)
    (h : poolOf m p = some ps)
    (hs : ¬ ps.state = State.REFRESHING)
    (hb : 1 ≤ m.storyletsPerTick) :
    (∀ q psq, poolOf (refresh ev m (some p)) q = some psq →
      ∃ psq2, poolOf (tick ev (refresh ev m (some p))).1 q = some psq2 ∧
        psq.refreshList.length - psq2.refreshList.length
          ≤ m.storyletsPerTick) ∧
    (∀ k, k < max 1 (((buildRefreshList ev ps.deck).length
          + m.storyletsPerTick - 1) / m.storyletsPerTick) →
      ∃ psk, poolOf (tickN ev k (refresh ev m (some p))).1 p = some psk ∧
        psk.state = State.REFRESHING) ∧
    (∃ psK, poolOf (tickN ev (max 1 (((buildRefreshList ev ps.deck).length
          + m.storyletsPerTick - 1) / m.storyletsPerTick))
        (refresh ev m (some p))).1 p = some psK ∧
      psK.state = State.REFRESH_COMPLETE) ∧
    (tickN ev (max 1 (((buildRefreshList ev ps.deck).length
          + m.storyletsPerTick - 1) / m.storyletsPerTick))
      (refresh ev m (some p))).2.count p = 1 := by
  set b := m.storyletsPerTick with hbdef
  set D := (buildRefreshList ev ps.deck).length with hDdef
  set K := max 1 ((D + b - 1) / b) with hKdef
  set m1 := refresh ev m (some p) with hm1
  have hm1per : m1.storyletsPerTick = b := refresh_perTick ev m (some p)
  have h1 : poolOf m1 p = some (refreshPool ev ps) := poolOf_refresh_named h hs
  have hk1 : (m1.pools.map Prod.fst).Nodup := by
    rw [hm1, refresh_named_eq h hs, updatePool_keys]
    exact hk
  have hrs : (refreshPool ev ps).state = State.REFRESHING := rfl
  have hrl : (refreshPool ev ps).refreshList.length = D := rfl
  refine ⟨?_, ?_, ?_, ?_⟩
  · intro q psq hq
    refine ⟨(tickPool ev m1.storyletsPerTick psq).1, poolOf_tick hq, ?_⟩
    rw [hm1per]
    exact tickPool_removed_le psq
  · intro k hkK
    refine ⟨tickPoolN ev m1.storyletsPerTick k (refreshPool ev ps),
      poolOf_tickN h1, ?_⟩
    rw [hm1per]
    by_cases hD0 : D = 0
    · have : k = 0 := by
        rw [hKdef, hD0] at hkK
        have : (0 + b - 1) / b = 0 := Nat.div_eq_of_lt (by omega)
        omega
      rw [this]
      exact hrs
    · have hD1 : 1 ≤ D := by omega
      obtain ⟨hc1, hc2, hc3⟩ := ceil_bounds hb hD1
      have hKeq : K = (D + b - 1) / b := by
        rw [hKdef]
        omega
      have hklt : k * b < D := by
        have hkle : k ≤ (D + b - 1) / b - 1 := by omega
        calc k * b ≤ ((D + b - 1) / b - 1) * b := Nat.mul_le_mul_right b hkle
          _ < D := hc3
      exact (tickPoolN_progress k (refreshPool ev ps) hrs (by rw [hrl]; exact hklt)).1
  · refine ⟨tickPoolN ev m1.storyletsPerTick K (refreshPool ev ps),
      poolOf_tickN h1, ?_⟩
    rw [hm1per]
    by_cases hD0 : D = 0
    · have hKone : K = 1 := by
        rw [hKdef, hD0]
        have : (0 + b - 1) / b = 0 := Nat.div_eq_of_lt (by omega)
        omega
      rw [hKone]
      show (tickPool ev b (refreshPool ev ps)).1.state = State.REFRESH_COMPLETE
      exact (tickPool_completes hrs (by rw [hrl]; omega)).1
    · have hD1 : 1 ≤ D := by omega
      obtain ⟨hc1, hc2, hc3⟩ := ceil_bounds hb hD1
      have hKeq : K = (D + b - 1) / b := by rw [hKdef]; omega
      have hKsplit : K = (K - 1) + 1 := by omega
      rw [hKsplit, tickPoolN_add]
      have hprog := @tickPoolN_progress ev b (K - 1)
        (refreshPool ev ps) hrs
        (by rw [hrl]; rw [hKeq]; exact hc3)
      show (tickPool ev b (tickPoolN ev b (K - 1) (refreshPool ev ps))).1.state
          = State.REFRESH_COMPLETE
      refine (tickPool_completes hprog.1 ?_).1
      rw [hprog.2.1, hrl]
      have h5 : ((D + b - 1) / b) * b = ((D + b - 1) / b - 1) * b + b := by
        rw [Nat.sub_mul, Nat.one_mul]
        have := Nat.le_mul_of_pos_left b (show 0 < (D + b - 1) / b by omega)
        omega
      rw [hKeq]
      omega
  · rw [count_tickN_events hk1 h1, hm1per]
    by_cases hD0 : D = 0
    · have hKone : K = 1 := by
        rw [hKdef, hD0]
        have : (0 + b - 1) / b = 0 := Nat.div_eq_of_lt (by omega)
        omega
      rw [hKone]
      show (if (tickPool ev b (refreshPool ev ps)).2 then 1 else 0) + 0 = 1
      rw [(tickPool_completes hrs (by rw [hrl]; omega)).2]
      rfl
    · have hD1 : 1 ≤ D := by omega
      obtain ⟨hc1, hc2, hc3⟩ := ceil_bounds hb hD1
      have hKeq : K = (D + b - 1) / b := by rw [hKdef]; omega
      have hKsplit : K = (K - 1) + 1 := by omega
      rw [hKsplit, countFired_add]
      have hprog := @tickPoolN_progress ev b (K - 1)
        (refreshPool ev ps) hrs
        (by rw [hrl]; rw [hKeq]; exact hc3)
      rw [hprog.2.2]
      show 0 + ((if (tickPool ev b (tickPoolN ev b (K - 1)
          (refreshPool ev ps))).2 then 1 else 0) + 0) = 1
      have hle : (tickPoolN ev b (K - 1)
          (refreshPool ev ps)).refreshList.length ≤ b := by
        rw [hprog.2.1, hrl]
        have h5 : ((D + b - 1) / b) * b = ((D + b - 1) / b - 1) * b + b := by
          rw [Nat.sub_mul, Nat.one_mul]
          have := Nat.le_mul_of_pos_left b (show 0 < (D + b - 1) / b by omega)
          omega
        rw [hKeq]
        omega
      have hcompl := @tickPool_completes ev b
        (tickPoolN ev b (K - 1) (refreshPool ev ps)) hprog.1 hle
      rw [hcompl.2]
      rfl

/-- Witness for C2 on the §8 deck (D = 3, budget 5, so exactly one tick
completes the refresh and fires the callback once). -/
theorem C2_tick_budget_and_completion_witness :
    (tickN evC1 (max 1 (((buildRefreshList evC1 deckC1).length + 5 - 1) / 5))
      (refresh evC1 mC1 (some "default"))).2.count "default" = 1 := by
  have h := C2_tick_budget_and_completion evC1 mC1 "default" { deck := deckC1 }
    (by decide) (by decide) (by decide) (by decide)
  exact h.2.2.2

/-! ## C5 -/

/-- C5: once a `once` (discardAfterPlay) storylet is played, its computed
weight is 0 without evaluation, so a completed refresh never puts it in
the hand or the weighted hand; ticks and refreshes leave the deck — and
hence its `played` flag — untouched, and only `resetPoolState` (the
body of `reset`) clears `played` back to false for the whole deck. -/
theorem C5_once_played_weight_zero (ev : String → EvalResult) (m : Manager)
    (p : String) (ps : PoolState) (s : Storylet) (n : Nat) (psF : PoolState)
    (h : poolOf m p = some ps)
    (hmem : s ∈ ps.deck)
    (honce : s.once = true)
    (hplayed : s.played = true)
    (hnd : (ps.deck.map Storylet.knotID).Nodup)
    (hs : ¬ ps.state = State.REFRESHING)
    (hF : poolOf (tickN ev n (refresh ev m (some p))).1 p = some psF)
    (hc : psF.state = State.REFRESH_COMPLETE) :
    getWeighting ev s = 0 ∧
    ¬ s.knotID ∈ psF.hand ∧ ¬ s.knotID ∈ psF.handWeighted ∧
    psF.deck = ps.deck ∧
    (∀ t ∈ (resetPoolState psF).deck, t.played = false) := by
  have hw : getWeighting ev s = 0 := by
    simp [getWeighting, honce, hplayed]
  have h1 : poolOf (refresh ev m (some p)) p = some (refreshPool ev ps) :=
    poolOf_refresh_named h hs
  have h2 := @poolOf_tickN ev p n (refresh ev m (some p))
    (refreshPool ev ps) h1
  rw [hF] at h2
  have hpsF := Option.some.inj h2
  have hcomp := @tickPoolN_complete ev
    ((refresh ev m (some p)).storyletsPerTick) n (refreshPool ev ps) rfl
    (by rw [← hpsF]; exact hc)
  rw [← hpsF] at hcomp
  have hhand : psF.hand = handOf ev (buildRefreshList ev ps.deck) := by
    rw [hcomp]
    exact List.nil_append _
  have hwhand : psF.handWeighted = whandOf ev (buildRefreshList ev ps.deck) := by
    rw [hcomp]
    exact List.nil_append _
  have huniq : ∀ r ∈ buildRefreshList ev ps.deck, r.knotID = s.knotID → r = s := by
    intro r hr hrid
    exact List.inj_on_of_nodup_map hnd
      (List.Sublist.mem hr (buildRefreshList_sublist ev ps.deck)) hmem hrid
  refine ⟨hw, ?_, ?_, by rw [hcomp]; rfl, ?_⟩
  · rw [hhand]
    intro hcmem
    obtain ⟨r, hr, hrid, hrw⟩ := mem_handOf.mp hcmem
    rw [huniq r hr hrid, hw] at hrw
    exact absurd hrw (by omega)
  · rw [hwhand]
    intro hcmem
    obtain ⟨r, hr, hrid, hrw⟩ := mem_whandOf.mp hcmem
    rw [huniq r hr hrid, hw] at hrw
    exact absurd hrw (by omega)
  · intro t ht
    obtain ⟨u, _, hu⟩ := List.mem_map.mp ht
    rw [← hu]

/-- A played `once` storylet. -/
def sC5 : Storylet := { knotID := "s_C", once := true, played := true }

/-- A manager whose default pool holds only the played `once` storylet. -/
def mC5 : Manager := { pools := [("default", { deck := [sC5] })] }

/-- The default pool of `mC5` after one refresh and one draining tick. -/
def psFC5 : PoolState :=
  { deck := [sC5], refreshList := [], hand := [], handWeighted := [],
    state := State.REFRESH_COMPLETE }

/-- Witness for C5: the played `once` storylet has weight 0 and is not in
the completed hand. -/
theorem C5_once_played_weight_zero_witness :
    getWeighting evC1 sC5 = 0 ∧ ¬ "s_C" ∈ psFC5.hand := by
  have h := C5_once_played_weight_zero evC1 mC5 "default" { deck := [sC5] }
    sC5 1 psFC5 (by decide) (by decide) (by decide) (by decide)
    (by decide) (by decide) (by decide) (by decide)
  exact ⟨h.1, h.2.1⟩

/-! ## C9 -/

/-- C9: `markPlayed(id)` with the pool argument omitted sets
`played := true` on the record with that id in every pool deck that
contains it, leaves pools whose deck does not contain it entirely
unchanged, and modifies nothing else: the tag cache, the budget, the
pool names, and every pool hand, weighted hand, pending queue and state
are untouched. -/
theorem C9_markPlayed_fanout (m : Manager) (id : String) :
    (markPlayed m id none).storyletTags = m.storyletTags ∧
    (markPlayed m id none).storyletsPerTick = m.storyletsPerTick ∧
    (markPlayed m id none).pools.map Prod.fst = m.pools.map Prod.fst ∧
    ∀ p ps, poolOf m p = some ps →
      ∃ ps2, poolOf (markPlayed m id none) p = some ps2 ∧
        ps2.hand = ps.hand ∧ ps2.handWeighted = ps.handWeighted ∧
        ps2.refreshList = ps.refreshList ∧ ps2.state = ps.state ∧
        ps2.deck.length = ps.deck.length ∧
        (∀ s ∈ ps.deck, s.knotID = id →
          { s with played := true } ∈ ps2.deck) ∧
        (∀ s ∈ ps.deck, ¬ s.knotID = id → s ∈ ps2.deck) ∧
        ((∀ s ∈ ps.deck, ¬ s.knotID = id) → ps2 = ps) := by
  have hpools : (markPlayed m id none)
      = { m with pools := m.pools.map (fun kv => (kv.1, markPlayedInPool kv.2 id)) } := rfl
  refine ⟨rfl, rfl, ?_, ?_⟩
  · rw [hpools]
    simp [List.map_map]
  · intro p ps h
    refine ⟨markPlayedInPool ps id, ?_, rfl, rfl, rfl, rfl, by
        simp [markPlayedInPool], ?_, ?_, ?_⟩
    · rw [hpools, poolOf_mapPools m (fun q => markPlayedInPool q id) p, h]
      rfl
    · intro s hs hsid
      apply List.mem_map.mpr
      exact ⟨s, hs, by simp [hsid]⟩
    · intro s hs hsid
      apply List.mem_map.mpr
      exact ⟨s, hs, by simp [hsid]⟩
    · intro hnone
      unfold markPlayedInPool
      have : ps.deck.map (fun s =>
          if s.knotID = id then { s with played := true } else s) = ps.deck := by
        conv_rhs => rw [← List.map_id ps.deck]
        apply List.map_congr_left
        intro s hs
        simp [hnone s hs]
      rw [this]

/-- Witness for C9 on a concrete manager: the marked record (played set
to true) is in the deck of the pool containing the id. -/
theorem C9_markPlayed_fanout_witness :
    (poolOf (markPlayed mC5 "s_C" none) "default").map (fun ps2 =>
      decide (({ knotID := "s_C", once := true, played := true } : Storylet)
        ∈ ps2.deck)) = some true := by
  obtain ⟨ps2, hps2, _, _, _, _, _, hmark, _, _⟩ :=
    (C9_markPlayed_fanout mC5 "s_C").2.2.2 "default" { deck := [sC5] }
      (by decide)
  rw [hps2]
  have hm := hmark sC5 (by decide) (by decide)
  show some (decide _) = some true
  rw [decide_eq_true (by simpa [sC5] using hm)]

/-! ## C10 -/

/-- C10: a pick on a REFRESH_COMPLETE pool with a non-empty weighted hand
(the random draw modelled as an index `i` into the weighted hand)
returns the drawn id, mutates only the played flag of that id in that
pool deck, leaves the hand, weighted hand, pending queue and state of
the pool unchanged (the drawn id is not removed), leaves every other
pool and the tag cache untouched, and a second pick at the same index —
regardless of the `once` flag of the drawn storylet — returns the same
id again. -/
theorem pickPlayableStorylet_eq {m : Manager} {p : String} {ps : PoolState}
    {i : Nat} (h : poolOf m p = some ps)
    (hc : ps.state = State.REFRESH_COMPLETE)
    (hne : ¬ ps.handWeighted.length = 0) :
    pickPlayableStorylet m i p
      = (markPlayed m (ps.handWeighted.getD i "") (some p),
         some (ps.handWeighted.getD i "")) := by
  unfold pickPlayableStorylet
  rw [h]
  simp [hc, hne]

theorem C10_pick_frame (m : Manager) (p : String) (ps : PoolState) (i : Nat)
    (h : poolOf m p = some ps)
    (hc : ps.state = State.REFRESH_COMPLETE)
    (hi : i < ps.handWeighted.length) :
    (pickPlayableStorylet m i p).2 = some (ps.handWeighted.getD i "") ∧
    (pickPlayableStorylet m i p).1.storyletTags = m.storyletTags ∧
    (∃ ps2, poolOf (pickPlayableStorylet m i p).1 p = some ps2 ∧
      ps2.hand = ps.hand ∧ ps2.handWeighted = ps.handWeighted ∧
      ps2.refreshList = ps.refreshList ∧
      ps2.state = State.REFRESH_COMPLETE ∧
      ps2.deck = ps.deck.map (fun s =>
        if s.knotID = ps.handWeighted.getD i "" then { s with played := true }
        else s)) ∧
    (∀ q, ¬ q = p →
      poolOf (pickPlayableStorylet m i p).1 q = poolOf m q) ∧
    (pickPlayableStorylet (pickPlayableStorylet m i p).1 i p).2
      = some (ps.handWeighted.getD i "") := by
  have hne : ¬ ps.handWeighted.length = 0 := by omega
  have hpick := pickPlayableStorylet_eq (i := i) h hc hne
  have hmark : markPlayed m (ps.handWeighted.getD i "") (some p)
      = updatePool m p (fun q => markPlayedInPool q (ps.handWeighted.getD i "")) := by
    unfold markPlayed
    dsimp only
    rw [h]
  have hps2 : poolOf (pickPlayableStorylet m i p).1 p
      = some (markPlayedInPool ps (ps.handWeighted.getD i "")) := by
    rw [hpick]
    show poolOf (markPlayed m (ps.handWeighted.getD i "") (some p)) p = _
    rw [hmark, poolOf_updatePool_self, h]
    rfl
  refine ⟨by rw [hpick], by rw [hpick, hmark]; rfl,
    ⟨markPlayedInPool ps (ps.handWeighted.getD i ""), hps2,
      rfl, rfl, rfl, hc, rfl⟩, ?_, ?_⟩
  · intro q hq
    rw [hpick]
    show poolOf (markPlayed m (ps.handWeighted.getD i "") (some p)) q = _
    rw [hmark]
    exact poolOf_updatePool_ne m p q _ (fun hpq => hq hpq.symm)
  · have hstate : (markPlayedInPool ps (ps.handWeighted.getD i "")).state
        = State.REFRESH_COMPLETE := hc
    have hhw : (markPlayedInPool ps (ps.handWeighted.getD i "")).handWeighted
        = ps.handWeighted := rfl
    rw [pickPlayableStorylet_eq (i := i) hps2 hstate (by rw [hhw]; exact hne)]
    rw [hhw]

/-- Manager for the C10 witness: completed pool with `s_C` (a `once`
storylet, unplayed) twice in the weighted hand. -/
def mC10 : Manager :=
  { pools := [("default",
      { deck := [{ knotID := "s_C", once := true }],
        refreshList := [],
        hand := ["s_C"],
        handWeighted := ["s_C", "s_C"],
        state := State.REFRESH_COMPLETE })] }

/-- Witness for C10: picking index 0 returns `s_C`, and a second pick at
the same index returns `s_C` again even though it is a `once` storylet. -/
theorem C10_pick_frame_witness :
    (pickPlayableStorylet mC10 0 "default").2 = some "s_C" ∧
    (pickPlayableStorylet (pickPlayableStorylet mC10 0 "default").1 0
      "default").2 = some "s_C" := by
  have h := C10_pick_frame mC10 "default"
    { deck := [{ knotID := "s_C", once := true }],
      refreshList := [],
      hand := ["s_C"],
      handWeighted := ["s_C", "s_C"],
      state := State.REFRESH_COMPLETE } 0 (by decide) (by decide) (by decide)
  exact ⟨h.1, h.2.2.2.2⟩

/-! ## C8 -/

/-- A manager with a registered but never refreshed pool whose storylet
`x` has the cached tag `desc: foo`. -/
def mC8 : Manager :=
  { pools := [("p", { deck := [{ knotID := "x" }] })]
    storyletTags := [("x", [("desc", TagVal.strV "foo")])] }

/-- C8 counterexample: the claim says `getTag` queries against a pool
that is not REFRESH_COMPLETE return the default value.  On the code,
`getStoryletTag` never consults pool state: with pool `p` still in
NEEDS_REFRESH, the cached tag value (not the null default) is
returned. -/
theorem C8_counterexample :
    (poolOf mC8 "p").map PoolState.state = some State.NEEDS_REFRESH ∧
    getStoryletTag mC8 "x" "desc" none = some (TagVal.strV "foo") :=
  ⟨rfl, by decide⟩

/-- C8 (amended): querying the hand or weighted hand of, or picking
from, a missing pool or any pool that is not REFRESH_COMPLETE returns
null and changes nothing; `getEligibleWithTag` restricted to such a pool
returns the empty list; and `getTag` — which never consults pool state —
returns the supplied default exactly when the id has no cached tags (in
particular for every id of a pool that was never registered) or when the
key is absent from the cached tags.  All of these are total functions in
the model: none of them throws. -/
theorem C8_unready_queries (m : Manager) (p : String) (w : Bool) (i : Nat)
    (tn : String) (tv : TagVal)
    (h : ∀ ps, poolOf m p = some ps → ¬ ps.state = State.REFRESH_COMPLETE) :
    getPlayableStorylets m w p = none ∧
    pickPlayableStorylet m i p = (m, none) ∧
    getPlayableStoryletsWithTag m tn tv (some p) = [] ∧
    (∀ id d, m.storyletTags.find? (fun kv => kv.1 = id) = none →
      getStoryletTag m id tn d = d) ∧
    (∀ id d tags, m.storyletTags.find? (fun kv => kv.1 = id) = some tags →
      tags.2.find? (fun kv => kv.1 = lowerStr tn) = none →
      getStoryletTag m id tn d = d) := by
  refine ⟨?_, ?_, ?_, ?_, ?_⟩
  · unfold getPlayableStorylets
    cases hp : poolOf m p with
    | none => rfl
    | some ps =>
      dsimp only
      rw [if_neg (h ps hp)]
  · unfold pickPlayableStorylet
    cases hp : poolOf m p with
    | none => rfl
    | some ps =>
      dsimp only
      rw [if_neg (h ps hp)]
  · unfold getPlayableStoryletsWithTag
    dsimp only
    rw [List.foldl_cons, List.foldl_nil]
    cases hp : poolOf m p with
    | none => rfl
    | some ps =>
      dsimp only
      rw [if_neg (h ps hp)]
  · intro id d hfind
    unfold getStoryletTag
    rw [hfind]
  · intro id d tags hfind hkey
    unfold getStoryletTag
    rw [hfind]
    dsimp only
    rw [hkey]

/-- Witness for C8 on a never-refreshed pool and an unregistered id. -/
theorem C8_unready_queries_witness :
    getPlayableStorylets mC8 false "p" = none ∧
    pickPlayableStorylet mC8 0 "p" = (mC8, none) ∧
    getPlayableStoryletsWithTag mC8 "desc" (TagVal.strV "foo") (some "p") = [] ∧
    getStoryletTag mC8 "y" "desc" none = none := by
  have h := C8_unready_queries mC8 "p" false 0 "desc" (TagVal.strV "foo")
    (by intro ps hp; rw [show ps = { deck := [{ knotID := "x" }] } from
      Option.some.inj hp.symm]; decide)
  exact ⟨h.1, h.2.1, h.2.2.1, h.2.2.2.1 "y" none (by decide)⟩

/-! ## C6 -/

theorem find?_map_comm {α β : Type} (l : List α) (g : α → β)
    (pb : β → Bool) (pa : α → Bool) (hcomm : ∀ a, pb (g a) = pa a) :
    (l.map g).find? pb = (l.find? pa).map g := by
  induction l with
  | nil => rfl
  | cons a l ih =>
    rw [List.map_cons, List.find?_cons, List.find?_cons, hcomm]
    cases hpa : pa a with
    | true => rfl
    | false => exact ih

/-- The effective per-record rewrite of the inner `loadFromJson` loop:
the last blob entry for an id wins; with unique entry keys this is the
unique entry, if any. -/
def applyFn (entries : List (String × Bool)) (s : Storylet) : Storylet :=
  match entries.find? (fun e => e.1 = s.knotID) with
  | some e => { s with played := e.2 }
  | none => s

theorem applyFn_knotID (entries : List (String × Bool)) (s : Storylet) :
    (applyFn entries s).knotID = s.knotID := by
  unfold applyFn
  cases entries.find? (fun e => e.1 = s.knotID) <;> rfl

theorem applyEntries_eq (entries : List (String × Bool))
    (hnd : (entries.map Prod.fst).Nodup) :
    ∀ deck : List Storylet,
    applyEntries deck entries = deck.map (applyFn entries) := by
  induction entries with
  | nil =>
    intro deck
    show deck = _
    conv_lhs => rw [← List.map_id deck]
    apply List.map_congr_left
    intro s _
    rfl
  | cons e es ih =>
    intro deck
    rw [List.map_cons, List.nodup_cons] at hnd
    show applyEntries (deck.map (fun s =>
      if s.knotID = e.1 then { s with played := e.2 } else s)) es = _
    rw [ih hnd.2, List.map_map]
    apply List.map_congr_left
    intro s _
    show applyFn es (if s.knotID = e.1 then { s with played := e.2 } else s)
      = applyFn (e :: es) s
    by_cases hse : s.knotID = e.1
    · rw [if_pos hse]
      have hnotes : es.find? (fun e2 => e2.1 = s.knotID) = none := by
        rw [List.find?_eq_none]
        intro x hx
        simp only [decide_eq_true_eq]
        intro hx1
        have hxe : x.1 = e.1 := hx1.trans hse
        exact hnd.1 (hxe ▸ List.mem_map_of_mem Prod.fst hx)
      unfold applyFn
      dsimp only
      rw [hnotes, List.find?_cons,
        show (decide (e.1 = s.knotID)) = true by simp [hse]]
    · rw [if_neg hse]
      unfold applyFn
      rw [List.find?_cons, show (decide (e.1 = s.knotID)) = false by
        simp only [decide_eq_false_iff_not]
        exact fun hc => hse hc.symm]

theorem poolOf_reset_all (m : Manager) (p : String) :
    poolOf (reset m none) p = (poolOf m p).map resetPoolState := by
  show poolOf
    { m with pools := m.pools.map (fun kv => (kv.1, resetPoolState kv.2)) } p
    = _
  exact poolOf_mapPools m resetPoolState p

theorem poolOf_loadApply (data : List (String × List (String × Bool))) :
    ∀ (m0 : Manager) (p : String),
    (data.map Prod.fst).Nodup →
    poolOf (data.foldl (fun mm pd =>
      match poolOf mm pd.1 with
      | none => mm
      | some _ => updatePool mm pd.1 (fun ps =>
          { ps with deck := applyEntries ps.deck pd.2 })) m0) p
      = match data.find? (fun pd => pd.1 = p) with
        | some pd => (poolOf m0 p).map (fun ps =>
            { ps with deck := applyEntries ps.deck pd.2 })
        | none => poolOf m0 p := by
  induction data with
  | nil =>
    intro m0 p _
    rfl
  | cons pd rest ih =>
    intro m0 p hnd
    rw [List.map_cons, List.nodup_cons] at hnd
    rw [List.foldl_cons, ih _ p hnd.2, List.find?_cons]
    by_cases hpd : pd.1 = p
    · rw [show (decide (pd.1 = p)) = true by simp [hpd]]
      have hrest : rest.find? (fun pd2 => pd2.1 = p) = none := by
        rw [List.find?_eq_none]
        intro x hx
        simp only [decide_eq_true_eq]
        intro hx1
        exact hnd.1 (hpd ▸ hx1 ▸ List.mem_map_of_mem Prod.fst hx)
      rw [hrest]
      show poolOf (match poolOf m0 pd.1 with
        | none => m0
        | some _ => updatePool m0 pd.1 (fun ps =>
            { ps with deck := applyEntries ps.deck pd.2 })) p = _
      cases hm0 : poolOf m0 pd.1 with
      | none =>
        rw [hpd] at hm0
        simp [hm0]
      | some ps0 =>
        dsimp only
        rw [hpd] at hm0 ⊢
        rw [poolOf_updatePool_self, hm0]
    · rw [show (decide (pd.1 = p)) = false by simp [hpd]]
      have hstep : poolOf (match poolOf m0 pd.1 with
          | none => m0
          | some _ => updatePool m0 pd.1 (fun ps =>
              { ps with deck := applyEntries ps.deck pd.2 })) p
          = poolOf m0 p := by
        cases hm0 : poolOf m0 pd.1 with
        | none => rfl
        | some ps0 =>
          dsimp only
          exact poolOf_updatePool_ne m0 pd.1 p _ hpd
      rw [hstep]

theorem deckGet_map_keyPreserving (deck : List Storylet)
    (g : Storylet → Storylet) (hg : ∀ s, (g s).knotID = s.knotID)
    (id : String) :
    deckGet (deck.map g) id = (deckGet deck id).map g := by
  unfold deckGet
  exact find?_map_comm deck g _ _ (fun s => by rw [hg s])

theorem deckGet_isSome_of_mem {deck : List Storylet} {s : Storylet}
    (h : s ∈ deck) : ∃ r, deckGet deck s.knotID = some r := by
  unfold deckGet
  induction deck with
  | nil => cases h
  | cons t deck ih =>
    by_cases hts : t.knotID = s.knotID
    · exact ⟨t, by
        rw [List.find?_cons,
          show (decide (t.knotID = s.knotID)) = true by simp [hts]]⟩
    · rcases List.mem_cons.mp h with rfl | h2
      · exact absurd rfl hts
      · obtain ⟨r, hr⟩ := ih h2
        exact ⟨r, by
          rw [List.find?_cons,
            show (decide (t.knotID = s.knotID)) = false by simp [hts]]
          exact hr⟩

/-- The keys of the saved blob are exactly the pool names. -/
theorem saveData_keys (m : Manager) :
    (saveData m).map Prod.fst = m.pools.map Prod.fst := by
  unfold saveData
  rw [List.map_map]
  apply List.map_congr_left
  intro kv _
  rfl

/-- C6: loading the blob produced by save first resets play-state for
every pool (hand, weighted hand and pending queue emptied, state back to
NEEDS_REFRESH), then restores the `played` flag of every id still
present in the corresponding pool deck to its value at save time; ids or
whole pools present in the blob but absent at load time are silently
dropped (the functions are total), and ids absent from the blob stay at
the reset value `false`. -/
theorem C6_save_load_roundtrip (m m2 : Manager) (p : String)
    (ps2 : PoolState)
    (hkm : (m.pools.map Prod.fst).Nodup)
    (hdm : ∀ kv ∈ m.pools, (kv.2.deck.map Storylet.knotID).Nodup)
    (h2 : poolOf m2 p = some ps2) :
    ∃ psL, poolOf (loadData m2 (saveData m)) p = some psL ∧
      psL.hand = [] ∧ psL.handWeighted = [] ∧ psL.refreshList = [] ∧
      psL.state = State.NEEDS_REFRESH ∧
      ∀ s2 ∈ ps2.deck,
        (deckGet psL.deck s2.knotID).map Storylet.played
          = some (match poolOf m p with
            | some ps =>
              match deckGet ps.deck s2.knotID with
              | some s => s.played
              | none => false
            | none => false) := by
  have hload : poolOf (loadData m2 (saveData m)) p
      = match (saveData m).find? (fun pd => pd.1 = p) with
        | some pd => (poolOf (reset m2 none) p).map (fun ps =>
            { ps with deck := applyEntries ps.deck pd.2 })
        | none => poolOf (reset m2 none) p :=
    poolOf_loadApply (saveData m) (reset m2 none) p
      (by rw [saveData_keys]; exact hkm)
  have hreset : poolOf (reset m2 none) p = some (resetPoolState ps2) := by
    rw [poolOf_reset_all, h2]
    rfl
  have hsfind : (saveData m).find? (fun pd => pd.1 = p)
      = (m.pools.find? (fun kv => kv.1 = p)).map
          (fun kv => (kv.1, kv.2.deck.map (fun s => (s.knotID, s.played)))) := by
    show (m.pools.map (fun kv =>
        (kv.1, kv.2.deck.map (fun s => (s.knotID, s.played))))).find?
        (fun pd => pd.1 = p) = _
    exact find?_map_keyed m.pools
      (fun ps => ps.deck.map (fun s => (s.knotID, s.played))) p
  cases hm : poolOf m p with
  | none =>
    have hfind : m.pools.find? (fun kv => kv.1 = p) = none :=
      Option.map_eq_none'.mp hm
    rw [hfind] at hsfind
    rw [hsfind] at hload
    rw [hreset] at hload
    refine ⟨resetPoolState ps2, hload, rfl, rfl, rfl, rfl, ?_⟩
    intro s2 hs2
    obtain ⟨r, hr⟩ := deckGet_isSome_of_mem hs2
    show (deckGet (ps2.deck.map (fun s => { s with played := false }))
      s2.knotID).map Storylet.played = some false
    rw [deckGet_map_keyPreserving ps2.deck
      (fun s => { s with played := false }) (fun s => rfl) s2.knotID, hr]
    rfl
  | some ps =>
    have hfind : m.pools.find? (fun kv => kv.1 = p) = some (p, ps) :=
      poolOf_find? hm
    rw [hfind] at hsfind
    rw [hsfind] at hload
    rw [hreset] at hload
    have hndentries : ((ps.deck.map (fun s => (s.knotID, s.played))).map
        Prod.fst).Nodup := by
      rw [List.map_map]
      exact hdm (p, ps) (poolOf_some_elim hm)
    refine ⟨_, hload, rfl, rfl, rfl, rfl, ?_⟩
    intro s2 hs2
    obtain ⟨r, hr⟩ := deckGet_isSome_of_mem hs2
    have hrid : r.knotID = s2.knotID := by
      simpa using List.find?_some hr
    show (deckGet (applyEntries
        (resetPoolState ps2).deck
        (ps.deck.map (fun s => (s.knotID, s.played)))) s2.knotID).map
        Storylet.played = _
    rw [applyEntries_eq _ hndentries]
    show (deckGet ((ps2.deck.map (fun s => { s with played := false })).map
        (applyFn (ps.deck.map (fun s => (s.knotID, s.played)))))
        s2.knotID).map Storylet.played = _
    rw [deckGet_map_keyPreserving _ _
        (applyFn_knotID (ps.deck.map (fun s => (s.knotID, s.played))))
        s2.knotID,
      deckGet_map_keyPreserving ps2.deck
        (fun s => { s with played := false }) (fun s => rfl) s2.knotID, hr]
    have hefind : (ps.deck.map (fun u : Storylet =>
          (u.knotID, u.played))).find?
        (fun e => e.1 = ({ r with played := false } : Storylet).knotID)
        = (ps.deck.find? (fun s => s.knotID = s2.knotID)).map
            (fun u : Storylet => (u.knotID, u.played)) := by
      rw [show ({ r with played := false } : Storylet).knotID = s2.knotID
        from hrid]
      exact find?_map_comm ps.deck (fun u : Storylet => (u.knotID, u.played))
        _ _ (fun u => rfl)
    show some (Storylet.played
        (applyFn (ps.deck.map (fun s => (s.knotID, s.played)))
          { r with played := false })) = _
    unfold applyFn
    rw [hefind]
    cases hfinal : ps.deck.find? (fun s => s.knotID = s2.knotID) with
    | none =>
      show some false = _
      show _ = some (match deckGet ps.deck s2.knotID with
        | some s => s.played
        | none => false)
      rw [show deckGet ps.deck s2.knotID = none from hfinal]
    | some s =>
      show some s.played = _
      show _ = some (match deckGet ps.deck s2.knotID with
        | some u => u.played
        | none => false)
      rw [show deckGet ps.deck s2.knotID = some s from hfinal]

/-- A played storylet for the C6 round-trip witness. -/
def sX : Storylet := { knotID := "x1", played := true }

/-- An unplayed storylet for the C6 round-trip witness. -/
def sY : Storylet := { knotID := "y1" }

/-- Manager for the C6 witness: one completed pool with a played and an
unplayed storylet. -/
def mW6 : Manager :=
  { pools := [("d",
      { deck := [sX, sY], hand := ["x1"],
        state := State.REFRESH_COMPLETE })] }

/-- Witness for C6: after save then load on `mW6`, the played flag of
`x1` is restored to true. -/
theorem C6_save_load_roundtrip_witness :
    (poolOf (loadData mW6 (saveData mW6)) "d").map
      (fun ps => (deckGet ps.deck "x1").map Storylet.played)
      = some (some true) := by
  obtain ⟨psL, hL, _, _, _, _, h5⟩ := C6_save_load_roundtrip mW6 mW6 "d"
    { deck := [sX, sY], hand := ["x1"], state := State.REFRESH_COMPLETE }
    (by decide) (by decide) (by decide)
  rw [hL]
  show some ((deckGet psL.deck "x1").map Storylet.played) = some (some true)
  rw [show ("x1" : String) = sX.knotID from rfl, h5 sX (by decide)]
  decide

/-! ## C7 -/

theorem deckSet_map_id (d : List Storylet) (s : Storylet) :
    (deckSet d s).map Storylet.knotID
      = if d.any (fun t => t.knotID = s.knotID) then d.map Storylet.knotID
        else d.map Storylet.knotID ++ [s.knotID] := by
  unfold deckSet
  by_cases h : d.any (fun t => t.knotID = s.knotID)
  · rw [if_pos h, if_pos h, List.map_map]
    apply List.map_congr_left
    intro t _
    by_cases ht : t.knotID = s.knotID <;> simp [ht]
  · rw [if_neg h, if_neg h]
    simp

theorem deckSet_nodup {d : List Storylet} {s : Storylet}
    (hnd : (d.map Storylet.knotID).Nodup) :
    ((deckSet d s).map Storylet.knotID).Nodup := by
  rw [deckSet_map_id]
  by_cases h : d.any (fun t => t.knotID = s.knotID)
  · rwa [if_pos h]
  · rw [if_neg h, List.nodup_append]
    refine ⟨hnd, by simp, ?_⟩
    intro a ha hb
    rw [List.mem_singleton] at hb
    subst hb
    obtain ⟨t, ht, hteq⟩ := List.mem_map.mp ha
    exact h (List.any_eq_true.mpr ⟨t, ht, by simp [hteq]⟩)

theorem deckSet_mem_other {d : List Storylet} {s t : Storylet}
    (ht : t ∈ d) (hne : ¬ t.knotID = s.knotID) : t ∈ deckSet d s := by
  unfold deckSet
  by_cases h : d.any (fun u => u.knotID = s.knotID)
  · rw [if_pos h]
    exact List.mem_map.mpr ⟨t, ht, by simp [hne]⟩
  · rw [if_neg h]
    exact List.mem_append.mpr (Or.inl ht)

theorem deckSet_mem_src {d : List Storylet} {s t : Storylet}
    (ht : t ∈ deckSet d s) (hne : ¬ t.knotID = s.knotID) : t ∈ d := by
  unfold deckSet at ht
  by_cases h : d.any (fun u => u.knotID = s.knotID)
  · rw [if_pos h] at ht
    obtain ⟨u, hu, hut⟩ := List.mem_map.mp ht
    by_cases hu2 : u.knotID = s.knotID
    · rw [if_pos hu2] at hut
      exact absurd (hut ▸ rfl) hne
    · rw [if_neg hu2] at hut
      exact hut ▸ hu
  · rw [if_neg h] at ht
    rcases List.mem_append.mp ht with h1 | h2
    · exact h1
    · rw [List.mem_singleton] at h2
      exact absurd (h2 ▸ rfl) hne

theorem deckSet_mem_self_id {d : List Storylet} {s t : Storylet}
    (ht : t ∈ deckSet d s) (hid : t.knotID = s.knotID) : t = s := by
  unfold deckSet at ht
  by_cases h : d.any (fun u => u.knotID = s.knotID)
  · rw [if_pos h] at ht
    obtain ⟨u, hu, hut⟩ := List.mem_map.mp ht
    by_cases hu2 : u.knotID = s.knotID
    · rw [if_pos hu2] at hut
      exact hut.symm
    · rw [if_neg hu2] at hut
      exact absurd (hut ▸ hid) hu2
  · rw [if_neg h] at ht
    rcases List.mem_append.mp ht with h1 | h2
    · exact absurd (List.any_eq_true.mpr ⟨t, h1, by simp [hid]⟩) h
    · exact List.mem_singleton.mp h2

/-- Folding the fresh-record overwrites of one `addStorylets` call over a
deck. -/
def deckFold (env : Env) (name : String) (cs : List String)
    (d : List Storylet) : List Storylet :=
  cs.foldl (fun d2 c => deckSet d2 (freshStorylet env name c)) d

theorem deckFold_nodup (env : Env) (name : String) :
    ∀ (cs : List String) (d : List Storylet),
    (d.map Storylet.knotID).Nodup →
    ((deckFold env name cs d).map Storylet.knotID).Nodup := by
  intro cs
  induction cs with
  | nil => intro d h; exact h
  | cons c cs ih =>
    intro d h
    exact ih (deckSet d (freshStorylet env name c)) (deckSet_nodup h)

theorem deckFold_mem_other (env : Env) (name : String) :
    ∀ (cs : List String) (d : List Storylet) (t : Storylet),
    t ∈ d → ¬ t.knotID ∈ cs → t ∈ deckFold env name cs d := by
  intro cs
  induction cs with
  | nil => intro d t ht _; exact ht
  | cons c cs ih =>
    intro d t ht hnc
    have h1 : ¬ t.knotID = c := fun hc => hnc (hc ▸ List.mem_cons_self c cs)
    have h2 : ¬ t.knotID ∈ cs := fun hc => hnc (List.mem_cons_of_mem c hc)
    exact ih _ t (deckSet_mem_other ht h1) h2

theorem deckFold_mem_src (env : Env) (name : String) :
    ∀ (cs : List String) (d : List Storylet) (t : Storylet),
    t ∈ deckFold env name cs d → ¬ t.knotID ∈ cs → t ∈ d := by
  intro cs
  induction cs with
  | nil => intro d t ht _; exact ht
  | cons c cs ih =>
    intro d t ht hnc
    have h1 : ¬ t.knotID = c := fun hc => hnc (hc ▸ List.mem_cons_self c cs)
    have h2 : ¬ t.knotID ∈ cs := fun hc => hnc (List.mem_cons_of_mem c hc)
    exact deckSet_mem_src (ih _ t ht h2) h1

theorem deckFold_fresh (env : Env) (name : String) :
    ∀ (cs : List String) (d : List Storylet) (t : Storylet),
    t ∈ deckFold env name cs d → t.knotID ∈ cs → t.played = false := by
  intro cs
  induction cs with
  | nil => intro d t _ hc; cases hc
  | cons c cs ih =>
    intro d t ht hc
    by_cases h2 : t.knotID ∈ cs
    · exact ih _ t ht h2
    · have h1 : t.knotID = c := by
        rcases List.mem_cons.mp hc with h | h
        · exact h
        · exact absurd h h2
      have hmem : t ∈ deckSet d (freshStorylet env name c) :=
        deckFold_mem_src env name cs _ t ht h2
      have : t = freshStorylet env name c :=
        deckSet_mem_self_id hmem h1
      rw [this]
      rfl

theorem addOne_other_pool (env : Env) (name pool : String) :
    ∀ (ids : List String) (mm : Manager) (q : String), ¬ q = pool →
    poolOf (ids.foldl (addOne env name pool) mm) q = poolOf mm q := by
  intro ids
  induction ids with
  | nil => intro mm q _; rfl
  | cons id ids ih =>
    intro mm q hq
    rw [List.foldl_cons, ih _ q hq]
    unfold addOne
    by_cases h1 : startsWithStr id (name ++ "_")
    · rw [if_pos h1]
      by_cases h2 : env.knotIDs.contains ("_" ++ id)
      · rw [if_pos h2]
        rw [poolOf_updatePool_ne _ pool q _ (fun hc => hq hc.symm)]
        rfl
      · rw [if_neg h2]
    · rw [if_neg h1]

theorem addOne_fold_pool (env : Env) (name pool : String) :
    ∀ (ids : List String) (mm : Manager) (ps : PoolState),
    poolOf mm pool = some ps →
    poolOf (ids.foldl (addOne env name pool) mm) pool
      = some { ps with deck :=
          (deckFold env name
            (ids.filter (fun id => startsWithStr id (name ++ "_")
              && env.knotIDs.contains ("_" ++ id)))
            ps.deck) } := by
  intro ids
  induction ids with
  | nil =>
    intro mm ps h
    rw [List.foldl_nil, List.filter_nil, h]
    rfl
  | cons id ids ih =>
    intro mm ps h
    rw [List.foldl_cons, List.filter_cons]
    by_cases h1 : startsWithStr id (name ++ "_")
    · by_cases h2 : env.knotIDs.contains ("_" ++ id)
      · have hcond : (startsWithStr id (name ++ "_")
            && env.knotIDs.contains ("_" ++ id)) = true := by
          rw [h1, h2]
          rfl
        rw [if_pos hcond]
        have hstep : poolOf (addOne env name pool mm id) pool
            = some { ps with deck :=
                (deckSet ps.deck (freshStorylet env name id)) } := by
          unfold addOne
          rw [if_pos h1, if_pos h2, poolOf_updatePool_self]
          have hsame : poolOf { mm with storyletTags :=
              (assocSet mm.storyletTags id (parseTags ((env.tagsFor id).getD []))) } pool
              = some ps := h
          rw [hsame]
          rfl
        rw [ih _ _ hstep]
        rfl
      · have hcond : (startsWithStr id (name ++ "_")
            && env.knotIDs.contains ("_" ++ id)) = false := by
          rw [h1, Bool.true_and]
          exact Bool.eq_false_iff.mpr h2
        rw [if_neg (by rw [hcond]; exact Bool.false_ne_true)]
        have hstep : addOne env name pool mm id = mm := by
          unfold addOne
          rw [if_pos h1, if_neg h2]
        rw [hstep]
        exact ih _ _ h
    · have hcond : (startsWithStr id (name ++ "_")
          && env.knotIDs.contains ("_" ++ id)) = false := by
        simp [h1]
      rw [if_neg (by rw [hcond]; exact Bool.false_ne_true)]
      have hstep : addOne env name pool mm id = mm := by
        unfold addOne
        rw [if_neg h1]
      rw [hstep]
      exact ih _ _ h

/-- C7 counterexample: the claim says re-registering an id preserves the
played flag it had before re-registration.  On the code `addStorylets`
constructs a fresh `Storylet` (whose `played` starts false) and
overwrites the deck entry, so a previously played storylet comes back
unplayed: with `enc_x` played and re-registered, the deck still has one
entry but its played flag is now false. -/
theorem C7_counterexample :
    ((poolOf ({ pools := [("default",
        { deck := [{ knotID := "enc_x", played := true }] })] } : Manager)
      "default").map (fun ps =>
        (deckGet ps.deck "enc_x").map Storylet.played) = some (some true)) ∧
    ((poolOf (addStorylets
        { evaluate := evErr, tagsFor := fun _ => some [],
          knotIDs := ["enc_x", "_enc_x"] }
        { pools := [("default",
          { deck := [{ knotID := "enc_x", played := true }] })] }
        "enc" "default") "default").map (fun ps =>
        ((deckGet ps.deck "enc_x").map Storylet.played, ps.deck.length))
      = some (some false, 1)) :=
  ⟨rfl, by decide⟩

/-- C7 (amended): registration creates no duplicate deck entries —
re-registering an id overwrites its record in place and id-uniqueness of
the deck is preserved — and never changes the played flag of any
storylet that is not re-registered (records whose id is not among the
accepted ids of the call are kept untouched); but every accepted id gets
a freshly constructed record whose played flag is false, so
re-registering a previously played id resets its played flag rather than
preserving it.  Other pools are untouched. -/
theorem C7_registration_overwrite (env : Env) (m : Manager)
    (name pool : String) (ps : PoolState)
    (h : poolOf m pool = some ps)
    (hnd : (ps.deck.map Storylet.knotID).Nodup) :
    ∃ psR, poolOf (addStorylets env m name pool) pool = some psR ∧
      psR.hand = ps.hand ∧ psR.handWeighted = ps.handWeighted ∧
      psR.refreshList = ps.refreshList ∧ psR.state = ps.state ∧
      (psR.deck.map Storylet.knotID).Nodup ∧
      (∀ s ∈ ps.deck, ¬ s.knotID ∈ acceptedIds env name → s ∈ psR.deck) ∧
      (∀ t ∈ psR.deck, t.knotID ∈ acceptedIds env name → t.played = false) ∧
      (∀ q, ¬ q = pool →
        poolOf (addStorylets env m name pool) q = poolOf m q) := by
  have hgc : getOrCreate m pool = m := getOrCreate_of_mem h
  have hfold : poolOf (addStorylets env m name pool) pool
      = some { ps with deck :=
          (deckFold env name (acceptedIds env name) ps.deck) } := by
    show poolOf (env.knotIDs.foldl (addOne env name pool)
      (getOrCreate m pool)) pool = _
    rw [hgc]
    exact addOne_fold_pool env name pool env.knotIDs m ps h
  refine ⟨_, hfold, rfl, rfl, rfl, rfl, ?_, ?_, ?_, ?_⟩
  · exact deckFold_nodup env name (acceptedIds env name) ps.deck hnd
  · intro s hs hacc
    exact deckFold_mem_other env name (acceptedIds env name) ps.deck s hs hacc
  · intro t ht hacc
    exact deckFold_fresh env name (acceptedIds env name) ps.deck t ht hacc
  · intro q hq
    show poolOf (env.knotIDs.foldl (addOne env name pool)
      (getOrCreate m pool)) q = _
    rw [hgc]
    exact addOne_other_pool env name pool env.knotIDs m q hq

/-- Witness for C7: on the concrete re-registration scenario the amended
claim applies; the deck ids stay unique (no duplicate was created). -/
theorem C7_registration_overwrite_witness :
    (poolOf (addStorylets
        { evaluate := evErr, tagsFor := fun _ => some [],
          knotIDs := ["enc_x", "_enc_x"] }
        { pools := [("default",
          { deck := [{ knotID := "enc_x", played := true }] })] }
        "enc" "default") "default").map (fun psR =>
      decide ((psR.deck.map Storylet.knotID).Nodup)) = some true := by
  obtain ⟨psR, hps, _, _, _, _, hnd, _, _, _⟩ := C7_registration_overwrite
    { evaluate := evErr, tagsFor := fun _ => some [],
      knotIDs := ["enc_x", "_enc_x"] }
    { pools := [("default",
      { deck := [{ knotID := "enc_x", played := true }] })] }
    "enc" "default" { deck := [{ knotID := "enc_x", played := true }] }
    (by decide) (by decide)
  rw [hps]
  show some (decide _) = some true
  rw [decide_eq_true hnd]

end Storylets
